import Mathlib

/-!
Bindings generator: `v3/internal/parser/bindings.go`

A shallow embedding of the JavaScript bindings generator and the properties
its specification states about it.

Modelling conventions:

* A Go `string` is modelled as `Str = List Char`, the sequence of its Unicode
  code points.  The generator only searches, splits, replaces, trims,
  concatenates and compares strings.  On well-formed UTF-8 text these byte-wise
  operations coincide with the code-point-wise ones used here (UTF-8 is
  self-synchronising and its byte order is the code point order).
* A Go `map` is modelled as an association list.  For the input collection the
  order of the list is the iteration order in which `range`/`lo.Keys` presents
  the entries; Go leaves that order unspecified, so a property that holds for
  every Go run has to hold for every order of the list.
* `*Parameter`, `*BoundMethod` are modelled by value: the generator never
  compares pointers and only reorders the method slices.
* `count` in `normalisePackageNames` is a Go `int`; it is modelled by `Nat`,
  which agrees with it for every list shorter than `2^63` entries.
-/

set_option maxRecDepth 1000000

namespace Bindings

/-- A Go string, as the list of its code points. -/
abbrev Str := List Char

/-! ## The library functions the generator calls -/

/-- `strings.Contains(s, substr)`: `substr` occurs somewhere in `s`
(the empty string occurs in every string). -/
def Contains : Str → Str → Bool
  | [], substr => substr.isPrefixOf []
  | c :: cs, substr => substr.isPrefixOf (c :: cs) || Contains cs substr

/-- Worker of `ReplaceAll` for a non-empty `old`: scan left to right; the
counter is the number of characters of the current match still to be
skipped. -/
def replaceFrom (old new : Str) : Nat → Str → Str
  | _, [] => []
  | k + 1, _ :: cs => replaceFrom old new k cs
  | 0, c :: cs =>
    if old.isPrefixOf (c :: cs) then new ++ replaceFrom old new (old.length - 1) cs
    else c :: replaceFrom old new 0 cs

/-- `strings.ReplaceAll(s, old, new)`: every non-overlapping occurrence of
`old`, found from left to right, is replaced by `new`; the inserted text is not
scanned again.  With an empty `old`, `new` is inserted before every code point
and at the end. -/
def ReplaceAll (s old new : Str) : Str :=
  if old = [] then new ++ s.flatMap (fun c => c :: new) else replaceFrom old new 0 s

/-- `strings.TrimSuffix(s, suffix)`: `s` without the trailing `suffix`, once,
when it ends with it. -/
def TrimSuffix (s suffix : Str) : Str :=
  if suffix.isSuffixOf s then s.take (s.length - suffix.length) else s

/-- `unicode.IsSpace`: the code points Go treats as white space. -/
def isSpace (c : Char) : Bool :=
  let n := c.toNat
  n = 0x09 || n = 0x0A || n = 0x0B || n = 0x0C || n = 0x0D || n = 0x20 || n = 0x85 ||
  n = 0xA0 || n = 0x1680 || (0x2000 ≤ n && n ≤ 0x200A) || n = 0x2028 || n = 0x2029 ||
  n = 0x202F || n = 0x205F || n = 0x3000

/-- `strings.TrimSpace(s)`: `s` without leading and trailing white space. -/
def TrimSpace (s : Str) : Str :=
  ((s.dropWhile isSpace).reverse.dropWhile isSpace).reverse

/-- `strings.Split(s, sep)` for a separator of one character: the pieces of `s`
between the separators, always at least one piece. -/
def Split (s : Str) (sep : Char) : List Str :=
  match s with
  | [] => [[]]
  | c :: cs =>
    if c = sep then [] :: Split cs sep
    else match Split cs sep with
      | [] => [[c]]
      | w :: ws => (c :: w) :: ws

/-- `strings.Join(elems, sep)`. -/
def Join : List Str → Str → Str
  | [], _ => []
  | [a], _ => a
  | a :: b :: rest, sep => a ++ sep ++ Join (b :: rest) sep

/-- `strconv.Itoa` on a non-negative integer: its decimal numeral. -/
def Itoa (n : Nat) : Str := Nat.toDigits 10 n

/-- Worker of `Uniq`: `seen` holds the items already kept. -/
def uniqFrom : List Str → List Str → List Str
  | _, [] => []
  | seen, x :: xs => if x ∈ seen then uniqFrom seen xs else x :: uniqFrom (x :: seen) xs

/-- `lo.Uniq`: the first occurrence of every item, in order. -/
def Uniq (collection : List Str) : List Str := uniqFrom [] collection

/-- The order of Go strings (`<=`), character by character. -/
def strLe : Str → Str → Bool
  | [], _ => true
  | _ :: _, [] => false
  | a :: as, b :: bs =>
    if a.toNat < b.toNat then true
    else if b.toNat < a.toNat then false
    else strLe as bs

/-- `sort.Strings`: the strings in ascending order. -/
def sortStrings (l : List Str) : List Str :=
  l.insertionSort (fun a b => strLe a b = true)

/-- A Go `map[string]V` as an association list. -/
abbrev GoMap (V : Type) := List (Str × V)

/-- `lo.Keys(m)`: the keys in iteration order. -/
def Keys {V : Type} (m : GoMap V) : List Str := m.map Prod.fst

/-- `m[k]` for a string-valued map: the value stored under `k`, the empty
string when the key is absent. -/
def getStr (m : GoMap Str) (k : Str) : Str :=
  match m with
  | [] => []
  | (k1, v) :: rest => if k1 = k then v else getStr rest k

/-- `m[k]` for a slice-valued map (a map of services, a map of method lists):
the value stored under `k`, the empty (nil) value when the key is absent. -/
def getList {V : Type} (m : GoMap (List V)) (k : Str) : List V :=
  match m with
  | [] => []
  | (k1, v) :: rest => if k1 = k then v else getList rest k

/-- `m[k] = v`. -/
def setStr (m : GoMap Str) (k v : Str) : GoMap Str :=
  match m with
  | [] => [(k, v)]
  | (k1, v1) :: rest => if k1 = k then (k, v) :: rest else (k1, v1) :: setStr rest k v

/-! ## The data model -/

/-- The fields of `ParameterType` the generator reads. -/
structure ParameterType where
  IsStruct : Bool
  Package : Str
deriving DecidableEq

/-- A method input or output; `Typ` is the field `Type` of the source (a
reserved word here).

Modelled from the spec: `JSType` is the result of the method `JSType()` of
`Parameter`, "a derived type-annotation string for doc purposes"; the method is
declared outside this file and is taken as given. -/
structure Parameter where
  Name : Str
  Typ : ParameterType
  JSType : Str
deriving DecidableEq

/-- A bound method. -/
structure BoundMethod where
  Name : Str
  DocComment : Str
  Inputs : List Parameter
  Outputs : List Parameter
deriving DecidableEq

/-! ## Constants -/

/-- The file header. -/
def header : Str :=
  "// @ts-check\n// Cynhyrchwyd y ffeil hon yn awtomatig. PEIDIWCH Â MODIWL\n// This file is automatically generated. DO NOT EDIT\n\n".toList

/-- The template of the per-service helper. -/
def helperTemplate : Str :=
  "function \x7b\x7bstructName\x7d\x7d(method) \x7b\n    return \x7b\n        packageName: \"\x7b\x7bpackageName\x7d\x7d\",\n        serviceName: \"\x7b\x7bstructName\x7d\x7d\",\n        methodName: method,\n        args: Array.prototype.slice.call(arguments, 1),\n    \x7d;\n\x7d\n".toList

/-- The template of a method stub. -/
def bindingTemplate : Str :=
  "\n/**\n * \x7b\x7bstructName\x7d\x7d.\x7b\x7bmethodName\x7d\x7d\n * Comments\n * @param name \x7bstring\x7d\n * @returns \x7bPromise<string>\x7d\n **/\nfunction \x7b\x7bmethodName\x7d\x7d(\x7b\x7binputs\x7d\x7d) \x7b\n    return wails.Call(\x7b\x7bstructName\x7d\x7d(\"\x7b\x7bmethodName\x7d\x7d\"\x7b\x7bargs\x7d\x7d));\n\x7d\n".toList

/-- The comma-separated list `sanitiseJSVarName` searches. -/
def reservedList : Str :=
  "break,case,catch,class,const,continue,debugger,default,delete,do,else,enum,export,extends,false,finally,for,function,if,implements,import,in,instanceof,interface,let,new,null,package,private,protected,public,return,static,super,switch,this,throw,true,try,typeof,var,void,while,with,yield".toList

/-- The reserved words: the entries of `reservedList`. -/
def reservedWords : List Str := Split reservedList ','

/-! ## The generator -/

/-- `GenerateHelper`. -/
def GenerateHelper (packageName structName : Str) : Str :=
  let result := ReplaceAll helperTemplate "\x7b\x7bpackageName\x7d\x7d".toList packageName
  let result := ReplaceAll result "\x7b\x7bstructName\x7d\x7d".toList structName
  result

/-- `sanitiseJSVarName`. -/
def sanitiseJSVarName (name : Str) : Str :=
  if Contains reservedList name then "_".toList ++ name else name

/-- `getPackageName`. -/
def getPackageName (input : Parameter) : Str :=
  if !input.Typ.IsStruct then []
  else
    let result := input.Typ.Package
    let result := if result = [] then "main".toList else result
    result

/-- The first loop over the inputs of `GenerateBinding`: it extends `models`
and builds `params`. -/
def paramsLoop (inputs : List Parameter) (models : List Str) : List Str × Str :=
  inputs.foldl (fun (st : List Str × Str) input =>
    let pkgName := getPackageName input
    let models := if pkgName ≠ [] then st.1 ++ [pkgName] else st.1
    (models, st.2 ++ (" * @param ".toList ++ sanitiseJSVarName input.Name ++ " \x7b".toList
      ++ input.JSType ++ "\x7d\n".toList))) (models, [])

/-- The second loop over the inputs of `GenerateBinding`: it extends `models`
again and builds `inputs`. -/
def inputsLoop (inputs : List Parameter) (models : List Str) : List Str × Str :=
  inputs.foldl (fun (st : List Str × Str) input =>
    let pkgName := getPackageName input
    let models := if pkgName ≠ [] then st.1 ++ [pkgName] else st.1
    (models, st.2 ++ (sanitiseJSVarName input.Name ++ ", ".toList))) (models, [])

/-- The loop over the outputs of `GenerateBinding`: it extends `models` and
`returns`. -/
def returnsLoop (outputs : List Parameter) (models : List Str) (returns : Str) :
    List Str × Str :=
  outputs.foldl (fun (st : List Str × Str) output =>
    let pkgName := getPackageName output
    let models := if pkgName ≠ [] then st.1 ++ [pkgName] else st.1
    let jsType := output.JSType
    let jsType := if jsType = "error".toList then "void".toList else jsType
    (models, st.2 ++ (jsType ++ ", ".toList))) (models, returns)

/-- `GenerateBinding`: the stub text and the model packages of one method. -/
def GenerateBinding (structName : Str) (method : BoundMethod) : Str × List Str :=
  let models : List Str := []
  let result := ReplaceAll bindingTemplate "\x7b\x7bstructName\x7d\x7d".toList structName
  let result := ReplaceAll result "\x7b\x7bmethodName\x7d\x7d".toList method.Name
  let comments := TrimSpace method.DocComment
  let result := ReplaceAll result "Comments".toList comments
  let st := paramsLoop method.Inputs models
  let models := st.1
  let params := st.2
  let params := TrimSuffix params "\n".toList
  let params := if params.length = 0 then " *".toList else params
  let result := ReplaceAll result " * @param name \x7bstring\x7d".toList params
  let st := inputsLoop method.Inputs models
  let models := st.1
  let inputs := st.2
  let inputs := TrimSuffix inputs ", ".toList
  let args := inputs
  let args := if args.length > 0 then ", ".toList ++ args else args
  let result := ReplaceAll result "\x7b\x7binputs\x7d\x7d".toList inputs
  let result := ReplaceAll result "\x7b\x7bargs\x7d\x7d".toList args
  let st : List Str × Str :=
    if method.Outputs.length = 0 then (models, " * @returns \x7bPromise<void>\x7d".toList)
    else
      let st := returnsLoop method.Outputs models " * @returns \x7bPromise<".toList
      let returns := TrimSuffix st.2 ", ".toList
      (st.1, returns ++ ">\x7d".toList)
  let models := st.1
  let returns := st.2
  let result := ReplaceAll result " * @returns \x7bPromise<string>\x7d".toList returns
  (result, Uniq models)

/-- The state of the loop of `normalisePackageNames`: `result`,
`packagesConverted` and `count`. -/
structure NormState where
  result : GoMap Str
  packagesConverted : List Str
  count : Nat

/-- One iteration of the loop of `normalisePackageNames`. -/
def normaliseStep (st : NormState) (packageName : Str) : NormState :=
  let originalPackageName := packageName
  let packageName :=
    if Contains packageName "/".toList then
      let parts := Split packageName '/'
      parts.getLastD []
    else packageName
  let seen := decide (packageName ∈ st.packagesConverted)
  let count := if seen then st.count + 1 else st.count
  let packageName := if seen then packageName ++ Itoa count else packageName
  { result := setStr st.result originalPackageName packageName
    packagesConverted := packageName :: st.packagesConverted
    count := count }

/-- `normalisePackageNames`. -/
def normalisePackageNames (packageNames : List Str) : GoMap Str :=
  (packageNames.foldl normaliseStep { result := [], packagesConverted := [], count := 1 }).result

/-- `sort.Slice(methods, ...)` by method name.  Go's sort is not stable: for
methods of equal name the order it leaves is unspecified, and this model keeps
their input order. -/
def sortMethods (methods : List BoundMethod) : List BoundMethod :=
  methods.insertionSort (fun a b => strLe a.Name b.Name = true)

/-- A bindings collection: package name to service name to methods. -/
abbrev BindingsMap := GoMap (GoMap (List BoundMethod))

/-- `result[key] += text`. -/
def appendAt (result : GoMap Str) (key text : Str) : GoMap Str :=
  setStr result key (getStr result key ++ text)

/-- The first loop over the services of one package in `GenerateBindings`: the
helper and the stubs are appended to the module, the models collected. -/
def stubsLoop (key : Str) (packageBindings : GoMap (List BoundMethod))
    (structNames : List Str) (result : GoMap Str) : GoMap Str × List Str :=
  structNames.foldl (fun (st : GoMap Str × List Str) structName =>
    let result := appendAt st.1 key (GenerateHelper key structName)
    let methods := sortMethods (getList packageBindings structName)
    methods.foldl (fun (st : GoMap Str × List Str) method =>
      let r := GenerateBinding structName method
      (appendAt st.1 key r.1, st.2 ++ r.2)) (result, st.2)) (result, [])

/-- The second loop over the services of one package in `GenerateBindings`:
the entries of the namespace object. -/
def namespaceLoop (key : Str) (packageBindings : GoMap (List BoundMethod))
    (structNames : List Str) (result : GoMap Str) : GoMap Str :=
  structNames.foldl (fun result structName =>
    let result := appendAt result key ("    ".toList ++ structName ++ ": \x7b\n".toList)
    let methods := sortMethods (getList packageBindings structName)
    let result := methods.foldl (fun result method =>
      appendAt result key ("        ".toList ++ method.Name ++ ",\n".toList)) result
    appendAt result key "    \x7d,\n".toList) result

/-- The names listed by the import statement: the translated models, sorted. -/
def importNames (normalisedPackageNames : GoMap Str) (allModels : List Str) : List Str :=
  let allModels := Uniq allModels
  let models := allModels.foldl (fun models model =>
    models ++ [getStr normalisedPackageNames model]) []
  sortStrings models

/-- The body of the loop over the packages in `GenerateBindings`. -/
def generatePackage (normalisedPackageNames : GoMap Str) (bindings : BindingsMap)
    (result : GoMap Str) (packageName : Str) : GoMap Str :=
  let key := getStr normalisedPackageNames packageName
  let packageBindings := getList bindings packageName
  let structNames := sortStrings (Keys packageBindings)
  let st := stubsLoop key packageBindings structNames result
  let result := st.1
  let allModels := st.2
  let result := appendAt result key "\nwindow.go = window.go || \x7b\x7d;\n".toList
  let result := appendAt result key ("window.go.".toList ++ key ++ " = \x7b\n".toList)
  let result := namespaceLoop key packageBindings structNames result
  let result := appendAt result key "\x7d;\n".toList
  let result :=
    if allModels.length > 0 then
      let models := importNames normalisedPackageNames allModels
      let result := appendAt result key "\n".toList
      let imports := "import \x7b".toList ++ Join models ", ".toList
        ++ "\x7d from './models';\n".toList
      setStr result key (imports ++ "\n".toList ++ getStr result key)
    else result
  setStr result key (header ++ getStr result key)

/-- `GenerateBindings`. -/
def GenerateBindings (bindings : BindingsMap) : GoMap Str :=
  let normalisedPackageNames := normalisePackageNames (Keys bindings)
  let packageNames := sortStrings (Keys bindings)
  packageNames.foldl (generatePackage normalisedPackageNames bindings) []

/-! ## Sample inputs -/

/-- The method of the first scenario of the specification: `Greet(name string)
string`. -/
def greet : BoundMethod :=
  { Name := "Greet".toList, DocComment := [],
    Inputs := [{ Name := "name".toList, Typ := { IsStruct := false, Package := [] },
                 JSType := "string".toList }],
    Outputs := [{ Name := "result".toList, Typ := { IsStruct := false, Package := [] },
                  JSType := "string".toList }] }

/-- The third scenario of the specification: a method with an input named
`delete`. -/
def remove : BoundMethod :=
  { Name := "Remove".toList, DocComment := [],
    Inputs := [{ Name := "delete".toList, Typ := { IsStruct := false, Package := [] },
                 JSType := "string".toList }],
    Outputs := [] }

/-- A method with the outputs `(int, error)`. -/
def intError : BoundMethod :=
  { Name := "Count".toList, DocComment := [], Inputs := [],
    Outputs := [
      { Name := [], Typ := { IsStruct := false, Package := [] }, JSType := "int".toList },
      { Name := [], Typ := { IsStruct := false, Package := [] }, JSType := "error".toList }] }

/-- A method whose only input has a type annotation that completes a
placeholder with the brace of the template. -/
def braceType : BoundMethod :=
  { Name := "Run".toList, DocComment := [],
    Inputs := [{ Name := "value".toList, Typ := { IsStruct := false, Package := [] },
                 JSType := "\x7binputs\x7d\x7d".toList }],
    Outputs := [] }

/-- A method whose only input has the type annotation `{x}`: its parameter
line ` * @param opts {{x}}` contains `{{`, but none of the placeholders. -/
def bracedAnnotation : BoundMethod :=
  { Name := "Run".toList, DocComment := [],
    Inputs := [{ Name := "opts".toList, Typ := { IsStruct := false, Package := [] },
                 JSType := "\x7bx\x7d".toList }],
    Outputs := [] }

/-- A method whose name completes a placeholder with the blank of the
template. -/
def starName : BoundMethod :=
  { Name := "* @param name \x7bstring\x7d".toList, DocComment := [], Inputs := [],
    Outputs := [] }

/-- Three distinct package identifiers; the last two share the final path
segment `models`. -/
def collidingNames : List Str :=
  ["models2".toList, "github.com/x/models".toList, "github.com/y/models".toList]

/-- Two packages with the same final path segment, one service each. -/
def twoModels : BindingsMap :=
  [("github.com/x/models".toList, [("A".toList, [])]),
   ("github.com/y/models".toList, [("B".toList, [])])]

/-- An input of the struct type `Person` of package `main`. -/
def personParam : Parameter :=
  { Name := "person".toList, Typ := { IsStruct := true, Package := "main".toList },
    JSType := "main.Person".toList }

/-- A method `Save(person main.Person)`. -/
def saveMethod : BoundMethod :=
  { Name := "Save".toList, DocComment := [], Inputs := [personParam], Outputs := [] }

/-- A package `main` whose method `Save` takes a struct of package `main`. -/
def selfModel : BindingsMap :=
  [("main".toList, [("App".toList, [saveMethod])])]

/-- An input of the struct type `Person` of the package `github.com/x/models`. -/
def xPerson : Parameter :=
  { Name := "person".toList,
    Typ := { IsStruct := true, Package := "github.com/x/models".toList },
    JSType := "models.Person".toList }

/-- An input of the struct type `Order` of the package `github.com/y/models`. -/
def yOrder : Parameter :=
  { Name := "order".toList,
    Typ := { IsStruct := true, Package := "github.com/y/models".toList },
    JSType := "models.Order".toList }

/-- An input of the struct type `Item` of the package `models2`. -/
def item : Parameter :=
  { Name := "item".toList, Typ := { IsStruct := true, Package := "models2".toList },
    JSType := "models2.Item".toList }

/-- A package `main` whose method takes a struct of a package that has no
bound methods of its own. -/
def foreignModel : BindingsMap :=
  [("main".toList, [("App".toList, [
    { Name := "Save".toList, DocComment := [], Inputs := [xPerson], Outputs := [] }])])]

/-- A package `main` whose method takes structs of two packages that have no
bound methods of their own. -/
def twoForeignModels : BindingsMap :=
  [("main".toList, [("App".toList, [
    { Name := "Save".toList, DocComment := [], Inputs := [xPerson, yOrder],
      Outputs := [] }])])]

/-- Four target packages, iterated in this order; a method of `main` takes
structs of the target packages `models2` and `github.com/y/models`. -/
def collidingModels : BindingsMap :=
  [("models2".toList, []), ("github.com/x/models".toList, []),
   ("github.com/y/models".toList, []),
   ("main".toList, [("App".toList, [
    { Name := "Save".toList, DocComment := [], Inputs := [item, yOrder],
      Outputs := [] }])])]

/-- A method `Move(person x.Person, item models2.Item, other x.Person)` with the
output `(order y.Order, error)`. -/
def move : BoundMethod :=
  { Name := "Move".toList, DocComment := [], Inputs := [xPerson, item, xPerson],
    Outputs := [yOrder,
      { Name := [], Typ := { IsStruct := false, Package := [] }, JSType := "error".toList }] }

/-- The four identifiers of the second scenario of the specification and a
later collision on another name. -/
def fourNames : List Str :=
  ["github.com/x/models".toList, "github.com/y/models".toList, "a/util".toList,
   "b/util".toList]

/-- A method `GetComments(postID string) string` without a doc comment. -/
def getComments : BoundMethod :=
  { Name := "GetComments".toList, DocComment := [],
    Inputs := [{ Name := "postID".toList, Typ := { IsStruct := false, Package := [] },
                 JSType := "string".toList }],
    Outputs := [{ Name := [], Typ := { IsStruct := false, Package := [] },
                  JSType := "string".toList }] }

/-- A package `main` with the service `App` and its method `Greet`. -/
def greetModel : BindingsMap :=
  [("main".toList, [("App".toList, [greet])])]

/-- A package `main` whose services and methods are supplied out of order. -/
def unorderedModel : BindingsMap :=
  [("main".toList, [("Zoo".toList, [remove, greet]), ("App".toList, [greet])])]

/-! ## Names for the values `GenerateBinding` substitutes -/

/-- The value of `params` when it is substituted into the template. -/
def paramsOf (method : BoundMethod) : Str :=
  let params := TrimSuffix (paramsLoop method.Inputs []).2 "\n".toList
  if params.length = 0 then " *".toList else params

/-- The value of `inputs` when it is substituted into the template. -/
def inputsOf (method : BoundMethod) : Str :=
  TrimSuffix (inputsLoop method.Inputs (paramsLoop method.Inputs []).1).2 ", ".toList

/-- The value of `args` when it is substituted into the template. -/
def argsOf (method : BoundMethod) : Str :=
  if (inputsOf method).length > 0 then ", ".toList ++ inputsOf method else inputsOf method

/-- The value of `returns` when it is substituted into the template. -/
def returnsOf (method : BoundMethod) : Str :=
  if method.Outputs.length = 0 then " * @returns \x7bPromise<void>\x7d".toList
  else
    TrimSuffix (returnsLoop method.Outputs
      (inputsLoop method.Inputs (paramsLoop method.Inputs []).1).1
      " * @returns \x7bPromise<".toList).2 ", ".toList ++ ">\x7d".toList

/-- The seven replacements of `GenerateBinding`, in its order, applied to a
piece `t` of the template. -/
def substituteAll (structName methodName comments params inputs args returns t : Str) : Str :=
  let result := ReplaceAll t "\x7b\x7bstructName\x7d\x7d".toList structName
  let result := ReplaceAll result "\x7b\x7bmethodName\x7d\x7d".toList methodName
  let result := ReplaceAll result "Comments".toList comments
  let result := ReplaceAll result " * @param name \x7bstring\x7d".toList params
  let result := ReplaceAll result "\x7b\x7binputs\x7d\x7d".toList inputs
  let result := ReplaceAll result "\x7b\x7bargs\x7d\x7d".toList args
  ReplaceAll result " * @returns \x7bPromise<string>\x7d".toList returns

/-- The seven replacements with the values of one method. -/
def substituteFor (structName : Str) (method : BoundMethod) (t : Str) : Str :=
  substituteAll structName method.Name (TrimSpace method.DocComment) (paramsOf method)
    (inputsOf method) (argsOf method) (returnsOf method) t

/-! ## The texts the specification describes -/

/-- The `@param` line of one input. -/
def paramLine (input : Parameter) : Str :=
  " * @param ".toList ++ sanitiseJSVarName input.Name ++ " \x7b".toList ++ input.JSType
    ++ "\x7d".toList

/-- The parameter block the specification describes: one `@param` line per
input, in declaration order, and the single line ` *` when there is none. -/
def paramBlock (method : BoundMethod) : Str :=
  if method.Inputs = [] then " *".toList else Join (method.Inputs.map paramLine) "\n".toList

/-- The annotation of one output in the return line: `void` for `error`. -/
def returnType (output : Parameter) : Str :=
  if output.JSType = "error".toList then "void".toList else output.JSType

/-- The return line the specification describes. -/
def returnsLine (method : BoundMethod) : Str :=
  if method.Outputs = [] then " * @returns \x7bPromise<void>\x7d".toList
  else " * @returns \x7bPromise<".toList ++ Join (method.Outputs.map returnType) ", ".toList
    ++ ">\x7d".toList

/-- The sanitised names of the inputs, in declaration order. -/
def paramNames (method : BoundMethod) : List Str :=
  method.Inputs.map (fun input => sanitiseJSVarName input.Name)

/-- The first line of the doc block: ` * S.M`. -/
def headerLine (structName : Str) (method : BoundMethod) : Str :=
  " * ".toList ++ structName ++ ".".toList ++ method.Name

/-- The doc-comment line: ` * ` and the trimmed doc text. -/
def docLine (method : BoundMethod) : Str :=
  " * ".toList ++ TrimSpace method.DocComment

/-- The signature of the stub: `function M(p1, ..., pk) {`. -/
def signatureLine (method : BoundMethod) : Str :=
  "function ".toList ++ method.Name ++ "(".toList ++ Join (paramNames method) ", ".toList
    ++ ") \x7b".toList

/-- The call of the stub: `return wails.Call(S("M", p1, ..., pk));`. -/
def callLine (structName : Str) (method : BoundMethod) : Str :=
  "return wails.Call(".toList ++ structName ++ "(".toList
    ++ Join (("\"".toList ++ method.Name ++ "\"".toList) :: paramNames method) ", ".toList
    ++ "));".toList

/-- The placeholder texts of the template, as the specification lists them. -/
def placeholderTexts : List Str :=
  ["\x7b\x7b".toList, "Comments".toList, " * @param name \x7bstring\x7d".toList,
    " * @returns \x7bPromise<string>\x7d".toList]

/-- The text `s` contains none of the placeholder texts. -/
def placeholderFree (s : Str) : Bool :=
  placeholderTexts.all (fun p => !Contains s p)

/-- Replacing `old` by `new` leaves `s` as it is for one of the two evident
reasons: `old` does not occur in `s`, or `new` is `old` itself. -/
def untouched (s old new : Str) : Bool :=
  !Contains s old || decide (new = old)

/-- The composed line `s` (the header line or the doc-comment line of
`method`) contains neither `{{` nor `Comments`, and each of the two line
placeholders occurs in it only when the text that replaces it is the
placeholder itself: the parameter block for ` * @param name {string}`, the
return line for ` * @returns {Promise<string>}`. -/
def lineSafe (method : BoundMethod) (s : Str) : Bool :=
  !Contains s "\x7b\x7b".toList && !Contains s "Comments".toList &&
  untouched s " * @param name \x7bstring\x7d".toList (paramBlock method) &&
  untouched s " * @returns \x7bPromise<string>\x7d".toList (returnsLine method)

/-- The parameter block of `method` contains none of the placeholders that are
still replaced after it is in place, `{{inputs}}` and `{{args}}`, and the
return placeholder ` * @returns {Promise<string>}` occurs in it only when the
return line of the method is that very text.  Other occurrences of `{{`, as in
the line ` * @param opts {{x}}` of the type annotation `{x}`, are allowed. -/
def blockSafe (method : BoundMethod) : Bool :=
  !Contains (paramBlock method) "\x7b\x7binputs\x7d\x7d".toList &&
  !Contains (paramBlock method) "\x7b\x7bargs\x7d\x7d".toList &&
  untouched (paramBlock method) " * @returns \x7bPromise<string>\x7d".toList
    (returnsLine method)

/-- The hypothesis of the claims on the stub: the service name, the method
name, the doc text and the names and type annotations of the inputs and outputs
contain none of the placeholder texts. -/
def placeholderFreeInputs (structName : Str) (method : BoundMethod) : Bool :=
  placeholderFree structName && placeholderFree method.Name &&
  placeholderFree method.DocComment &&
  method.Inputs.all (fun p => placeholderFree p.Name && placeholderFree p.JSType) &&
  method.Outputs.all (fun p => placeholderFree p.Name && placeholderFree p.JSType)

/-- The placeholder texts, the two line placeholders without their leading
blank. -/
def bareTexts : List Str :=
  ["\x7b\x7b".toList, "Comments".toList, "* @param name \x7bstring\x7d".toList,
    "* @returns \x7bPromise<string>\x7d".toList]

/-- The name `s` contains none of the texts of `bareTexts`. -/
def nameSafe (s : Str) : Bool :=
  bareTexts.all (fun p => !Contains s p)

/-- The models a method refers to, before deduplication: the origin packages
of its struct-typed inputs (collected by both input loops) and outputs. -/
def structPackages (ps : List Parameter) : List Str :=
  (ps.map getPackageName).filter (fun pkg => pkg ≠ [])

/-- The value of `allModels` after the first loop over the services of a
package. -/
def allModelsOf (packageBindings : GoMap (List BoundMethod)) : List Str :=
  (sortStrings (Keys packageBindings)).flatMap (fun structName =>
    (sortMethods (getList packageBindings structName)).flatMap (fun method =>
      (GenerateBinding structName method).2))

/-- The import statement for the given names. -/
def importStatement (models : List Str) : Str :=
  "import \x7b".toList ++ Join models ", ".toList ++ "\x7d from './models';\n".toList

/-- Every text of `r` is kept, as a part, in the text `r2` has under the same
key. -/
def MapLe (r r2 : GoMap Str) : Prop := ∀ k, getStr r k <:+: getStr r2 k

/-! ## The model packages, as the specification describes them -/

/-- The origin package of a struct type: its package, `main` when that is
empty. -/
def originPackage (p : Parameter) : Str :=
  if p.Typ.Package = [] then "main".toList else p.Typ.Package

/-- The origin packages of the struct-typed parameters of a list, in order. -/
def originPackages (ps : List Parameter) : List Str :=
  (ps.filter (fun p => p.Typ.IsStruct)).map originPackage

/-! ## The package name normaliser, as the specification describes it -/

/-- The text after the last `sep` of a string, the whole string when it has no
`sep`. -/
def afterLast (sep : Char) : Str → Str
  | [] => []
  | c :: cs => if sep ∈ cs then afterLast sep cs else if c = sep then cs else c :: cs

/-- The candidate display name of a package identifier: the text after its last
`/`, or the whole identifier if it has no `/`. -/
def candidate (packageName : Str) : Str := afterLast '/' packageName

/-- The state of `normalisePackageNames` after the loop has run over `l`. -/
def normState (l : List Str) : NormState :=
  l.foldl normaliseStep { result := [], packagesConverted := [], count := 1 }

/-- The display names `normalisePackageNames` assigns to the identifiers of
`l`. -/
def displayNames (l : List Str) : List Str :=
  l.map (getStr (normalisePackageNames l))

/-- The identifier `x`, met after the identifiers `pre`, collides: its candidate
is a display name already assigned. -/
def isCollision (pre : List Str) (x : Str) : Bool :=
  decide (candidate x ∈ displayNames pre)

/-- The number of collisions of a run over `l`: the positions whose identifier
collides with the display names assigned to the identifiers before it. -/
def collisionCount (l : List Str) : Nat :=
  ((List.range l.length).filter (fun i => isCollision (l.take i) (l.getD i []))).length

/-! ## The module text -/

/-- The map `r2` is `r` with `text` appended to the entry of `key`. -/
def Appended (key text : Str) (r r2 : GoMap Str) : Prop :=
  getStr r2 key = getStr r key ++ text ∧ ∀ k, k ≠ key → getStr r2 k = getStr r k

/-- The helper and the stubs of the services, in the given order. -/
def stubsText (key : Str) (services : List (Str × List BoundMethod)) : Str :=
  services.flatMap (fun e =>
    GenerateHelper key e.1 ++ e.2.flatMap (fun method => (GenerateBinding e.1 method).1))

/-- The entries of the namespace object, in the given order. -/
def namespaceText (services : List (Str × List BoundMethod)) : Str :=
  services.flatMap (fun e =>
    "    ".toList ++ e.1 ++ ": \x7b\n".toList
      ++ e.2.flatMap (fun method => "        ".toList ++ method.Name ++ ",\n".toList)
      ++ "    \x7d,\n".toList)

/-- The module of a package without the header and the import statement. -/
def moduleBody (key : Str) (services : List (Str × List BoundMethod)) : Str :=
  stubsText key services ++ "\nwindow.go = window.go || \x7b\x7d;\n".toList
    ++ ("window.go.".toList ++ key ++ " = \x7b\n".toList)
    ++ namespaceText services ++ "\x7d;\n".toList

/-- The services of a package as `GenerateBindings` visits them: by ascending
name, each with its methods by ascending name. -/
def visitedServices (packageBindings : GoMap (List BoundMethod)) :
    List (Str × List BoundMethod) :=
  (sortStrings (Keys packageBindings)).map (fun structName =>
    (structName, sortMethods (getList packageBindings structName)))

/-- The text one iteration of `GenerateBindings` leaves under the key of its
package, when `previous` was there before. -/
def moduleText (normalisedPackageNames : GoMap Str) (bindings : BindingsMap)
    (packageName previous : Str) : Str :=
  if allModelsOf (getList bindings packageName) = [] then
    header ++ (previous
      ++ moduleBody (getStr normalisedPackageNames packageName)
          (visitedServices (getList bindings packageName)))
  else
    header ++ (importStatement (importNames normalisedPackageNames
        (allModelsOf (getList bindings packageName))) ++ "\n".toList
      ++ (previous
        ++ moduleBody (getStr normalisedPackageNames packageName)
            (visitedServices (getList bindings packageName))
        ++ "\n".toList))

/-- The method has a struct-typed input or output. -/
def usesStruct (method : BoundMethod) : Bool :=
  (method.Inputs ++ method.Outputs).any (fun p => p.Typ.IsStruct)

/-- Some method of the package has a struct-typed input or output. -/
def packageUsesStruct (packageBindings : GoMap (List BoundMethod)) : Bool :=
  (Keys packageBindings).any (fun structName =>
    (getList packageBindings structName).any usesStruct)

/-! ## The identifier sanitiser -/

theorem reservedWords_contained :
    ∀ w ∈ reservedWords, Contains reservedList w = true := by
  decide

theorem reservedWords_head :
    ∀ w ∈ reservedWords, w.head? ≠ some '_' := by
  decide

/-- C3 (the code departs from the claim): the parameter name `id` is not a
reserved word, yet `sanitiseJSVarName` does not return it unchanged: it is a
part of the word `void` of the searched list, so it comes back as `_id`. -/
theorem sanitiseJSVarName_id :
    "id".toList ∉ reservedWords ∧
      sanitiseJSVarName "id".toList = "_id".toList := by
  decide

/-- C4: for every reserved word `w` of the fixed list, `sanitiseJSVarName w`
is exactly `_` followed by `w`. -/
theorem sanitiseJSVarName_reserved (w : Str) (hw : w ∈ reservedWords) :
    sanitiseJSVarName w = "_".toList ++ w := by
  unfold sanitiseJSVarName
  rw [if_pos (reservedWords_contained w hw)]

theorem sanitiseJSVarName_reserved_witness :
    "delete".toList ∈ reservedWords ∧
      sanitiseJSVarName "delete".toList = "_".toList ++ "delete".toList :=
  ⟨by decide, sanitiseJSVarName_reserved "delete".toList (by decide)⟩

/-- C5: for every input string `s`, the result of `sanitiseJSVarName s` is not
one of the reserved words of the fixed list. -/
theorem sanitiseJSVarName_not_reserved (s : Str) :
    sanitiseJSVarName s ∉ reservedWords := by
  unfold sanitiseJSVarName
  by_cases h : Contains reservedList s = true
  · rw [if_pos h]
    intro hmem
    exact reservedWords_head _ hmem rfl
  · rw [if_neg h]
    intro hmem
    exact h (reservedWords_contained s hmem)


/-! ## Facts about the string functions -/

theorem Contains_iff (s sub : Str) : Contains s sub = true ↔ sub <:+: s := by
  induction s with
  | nil =>
    cases sub <;> simp [Contains, List.isPrefixOf]
  | cons c cs ih =>
    simp only [Contains, Bool.or_eq_true, ih, List.isPrefixOf_iff_prefix]
    exact (List.infix_cons_iff).symm

theorem Contains_eq_false_iff (s sub : Str) : Contains s sub = false ↔ ¬ sub <:+: s := by
  rw [← Contains_iff]; simp

theorem Contains_nil_pattern (s : Str) : Contains s [] = true := by
  cases s <;> simp [Contains, List.isPrefixOf]

theorem sanitiseJSVarName_ne_nil (name : Str) : sanitiseJSVarName name ≠ [] := by
  unfold sanitiseJSVarName
  by_cases h : Contains reservedList name = true
  · rw [if_pos h]; simp
  · rw [if_neg h]
    intro e
    rw [e] at h
    exact h (Contains_nil_pattern _)

theorem Contains_mono_left {s t old : Str} (h : t <:+: s) (hs : Contains s old = false) :
    Contains t old = false := by
  rw [Contains_eq_false_iff] at hs ⊢
  exact fun ht => hs (ht.trans h)

theorem Contains_mono_right {s sub old : Str} (h : Contains old sub = true)
    (hs : Contains s sub = false) : Contains s old = false := by
  rw [Contains_eq_false_iff] at hs ⊢
  rw [Contains_iff] at h
  exact fun ho => hs (h.trans ho)

theorem Contains_cons_of_tail {s t : Str} (c x : Char) (h : Contains s t = false) :
    Contains (c :: s) (x :: t) = false := by
  rw [Contains_eq_false_iff] at h ⊢
  intro hi
  rcases List.infix_cons_iff.mp hi with hp | hp
  · exact h ((List.cons_prefix_cons.mp hp).2).isInfix
  · exact h ((List.suffix_cons x t).isInfix.trans hp)

theorem Contains_skip {x : Char} (t : Str) (pre y : Str) (hx : x ∉ pre) :
    Contains (pre ++ y) (x :: t) = Contains y (x :: t) := by
  induction pre with
  | nil => rfl
  | cons c pre' ih =>
    have hc : ¬ x = c := by intro e; exact hx (by simp [e])
    have ih' := ih (fun hm => hx (List.mem_cons_of_mem _ hm))
    simp [Contains, List.isPrefixOf, hc, ih']

theorem prefix_of_prefix_sep {d : Char} {old : Str} (hd : d ∉ old) :
    ∀ (a b : Str), old <+: a ++ d :: b → old <+: a := by
  induction old with
  | nil => intro a b _; exact List.nil_prefix
  | cons x xs ih =>
    intro a b h
    cases a with
    | nil =>
      simp only [List.nil_append, List.cons_prefix_cons] at h
      exact absurd h.1 (by intro e; exact hd (by simp [e]))
    | cons c a' =>
      simp only [List.cons_append, List.cons_prefix_cons] at h
      rw [List.cons_prefix_cons]
      exact ⟨h.1, ih (fun hm => hd (List.mem_cons_of_mem _ hm)) a' b h.2⟩

theorem replaceFrom_sep {d : Char} {old : Str} (new : Str) (hd : d ∉ old) (hne : old ≠ [])
    (a b : Str) : ∀ k, k ≤ a.length →
      replaceFrom old new k (a ++ d :: b)
        = replaceFrom old new k a ++ d :: replaceFrom old new 0 b := by
  induction a with
  | nil =>
    intro k hk
    have hk0 : k = 0 := by simpa using hk
    subst hk0
    have hnp : old.isPrefixOf (d :: b) = false := by
      cases old with
      | nil => exact absurd rfl hne
      | cons x xs =>
        have : x ≠ d := by intro e; exact hd (by simp [e])
        simp [List.isPrefixOf, this]
    simp [replaceFrom, hnp]
  | cons c a' ih =>
    intro k hk
    cases k with
    | succ k' =>
      change replaceFrom old new k' (a' ++ d :: b)
        = replaceFrom old new k' a' ++ d :: replaceFrom old new 0 b
      exact ih k' (by simpa using hk)
    | zero =>
      change (if old.isPrefixOf (c :: (a' ++ d :: b)) = true
          then new ++ replaceFrom old new (old.length - 1) (a' ++ d :: b)
          else c :: replaceFrom old new 0 (a' ++ d :: b))
        = (if old.isPrefixOf (c :: a') = true
          then new ++ replaceFrom old new (old.length - 1) a'
          else c :: replaceFrom old new 0 a') ++ d :: replaceFrom old new 0 b
      by_cases hp : old.isPrefixOf (c :: a') = true
      · have hp2 : old.isPrefixOf (c :: (a' ++ d :: b)) = true := by
          rw [List.isPrefixOf_iff_prefix] at hp ⊢
          exact hp.trans (by simp)
        have hlen : old.length - 1 ≤ a'.length := by
          rw [List.isPrefixOf_iff_prefix] at hp
          have := hp.length_le
          simp at this
          omega
        rw [if_pos hp, if_pos hp2, ih _ hlen, List.append_assoc]
      · have hp2 : ¬ old.isPrefixOf (c :: (a' ++ d :: b)) = true := by
          intro h
          apply hp
          rw [List.isPrefixOf_iff_prefix] at h ⊢
          exact prefix_of_prefix_sep hd (c :: a') b (by simpa using h)
        rw [if_neg hp, if_neg hp2, ih 0 (Nat.zero_le _)]
        rfl

theorem ReplaceAll_sep {d : Char} {old : Str} (new : Str) (hd : d ∉ old) (hne : old ≠ [])
    (a b : Str) :
    ReplaceAll (a ++ d :: b) old new = ReplaceAll a old new ++ d :: ReplaceAll b old new := by
  unfold ReplaceAll
  rw [if_neg hne, if_neg hne, if_neg hne]
  exact replaceFrom_sep new hd hne a b 0 (Nat.zero_le _)

theorem replaceFrom_of_not_infix {old : Str} (new : Str) :
    ∀ s : Str, ¬ old <:+: s → replaceFrom old new 0 s = s := by
  intro s
  induction s with
  | nil => intro _; rfl
  | cons c cs ih =>
    intro h
    have hp : ¬ old.isPrefixOf (c :: cs) = true := by
      intro hp
      rw [List.isPrefixOf_iff_prefix] at hp
      exact h hp.isInfix
    have ht : ¬ old <:+: cs := fun hi => h (List.infix_cons hi)
    simp only [replaceFrom, if_neg hp, ih ht]

theorem ReplaceAll_of_not_contains {s old : Str} (new : Str) (hne : old ≠ [])
    (h : Contains s old = false) : ReplaceAll s old new = s := by
  unfold ReplaceAll
  rw [if_neg hne]
  exact replaceFrom_of_not_infix new s ((Contains_eq_false_iff s old).mp h)

theorem replaceFrom_self {old : Str} (hne : old ≠ []) :
    ∀ (s : Str) (k : Nat), replaceFrom old old k s = s.drop k := by
  intro s
  induction s with
  | nil => intro k; cases k <;> rfl
  | cons c cs ih =>
    intro k
    cases k with
    | succ k' =>
      change replaceFrom old old k' cs = cs.drop k'
      exact ih k'
    | zero =>
      change (if old.isPrefixOf (c :: cs) = true
          then old ++ replaceFrom old old (old.length - 1) cs
          else c :: replaceFrom old old 0 cs) = c :: cs
      by_cases hp : old.isPrefixOf (c :: cs) = true
      · rw [if_pos hp, ih]
        rw [List.isPrefixOf_iff_prefix] at hp
        obtain ⟨t, ht⟩ := hp
        cases old with
        | nil => exact absurd rfl hne
        | cons x xs =>
          simp only [List.cons_append, List.cons.injEq] at ht
          obtain ⟨hx, hcs⟩ := ht
          subst hx
          subst hcs
          simp
      · rw [if_neg hp, ih 0]
        rfl

theorem ReplaceAll_untouched {s old new : Str} (hne : old ≠ [])
    (h : untouched s old new = true) : ReplaceAll s old new = s := by
  have h' : Contains s old = false ∨ new = old := by
    simpa only [untouched, Bool.or_eq_true, Bool.not_eq_true', decide_eq_true_eq] using h
  rcases h' with h' | h'
  · exact ReplaceAll_of_not_contains new hne h'
  · subst h'
    unfold ReplaceAll
    rw [if_neg hne]
    exact replaceFrom_self hne s 0

theorem Contains_sep {d : Char} {old : Str} (hd : d ∉ old) (hne : old ≠ []) (a b : Str) :
    Contains (a ++ d :: b) old = (Contains a old || Contains b old) := by
  rw [Bool.eq_iff_iff, Bool.or_eq_true, Contains_iff, Contains_iff, Contains_iff]
  constructor
  · intro h
    induction a with
    | nil =>
      rw [List.nil_append, List.infix_cons_iff] at h
      rcases h with h | h
      · cases old with
        | nil => exact absurd rfl hne
        | cons x xs =>
          rw [List.cons_prefix_cons] at h
          exact absurd h.1 (by intro e; exact hd (by simp [e]))
      · exact Or.inr h
    | cons c a' ih =>
      rw [List.cons_append, List.infix_cons_iff] at h
      rcases h with h | h
      · exact Or.inl (prefix_of_prefix_sep hd (c :: a') b (by simpa using h)).isInfix
      · rcases ih h with h1 | h1
        · exact Or.inl (List.infix_cons h1)
        · exact Or.inr h1
  · intro h
    rcases h with h | h
    · exact h.trans (List.infix_append' [] a (d :: b))
    · exact h.trans ((List.suffix_cons d b).isInfix.trans (List.suffix_append a (d :: b)).isInfix)

theorem TrimSuffix_append (x suf : Str) : TrimSuffix (x ++ suf) suf = x := by
  unfold TrimSuffix
  have h : suf.isSuffixOf (x ++ suf) = true := by
    rw [List.isSuffixOf_iff_suffix]; exact List.suffix_append x suf
  rw [if_pos h]
  simp

theorem flatten_map_append_sep (sep : Str) (l : List Str) (h : l ≠ []) :
    (l.map (fun x => x ++ sep)).flatten = Join l sep ++ sep := by
  induction l with
  | nil => exact absurd rfl h
  | cons a rest ih =>
    cases rest with
    | nil => simp [Join]
    | cons b r =>
      have := ih (by simp)
      simp only [List.map_cons, List.flatten_cons] at this ⊢
      rw [this]
      simp [Join, List.append_assoc]

theorem Join_ne_nil (sep : Str) (l : List Str) (h : l ≠ []) (hl : ∀ x ∈ l, x ≠ []) :
    Join l sep ≠ [] := by
  cases l with
  | nil => exact absurd rfl h
  | cons a rest =>
    have ha : a ≠ [] := hl a (by simp)
    cases rest with
    | nil => simpa [Join] using ha
    | cons b r => simp [Join, ha]

theorem Contains_Join {old : Str} (hc : ',' ∉ old) (hs : ' ' ∉ old) (hne : old ≠ [])
    (l : List Str) (h : ∀ q ∈ l, Contains q old = false) :
    Contains (Join l ", ".toList) old = false := by
  have hnil : Contains [] old = false := by
    cases old with
    | nil => exact absurd rfl hne
    | cons x xs => rfl
  induction l with
  | nil => exact hnil
  | cons a rest ih =>
    cases rest with
    | nil => exact h a (by simp)
    | cons b r =>
      have e : Join (a :: b :: r) ", ".toList
          = a ++ ',' :: ([] ++ ' ' :: Join (b :: r) ", ".toList) := by
        simp [Join]
      rw [e, Contains_sep hc hne, Contains_sep hs hne, h a (by simp), hnil,
        ih (fun q hq => h q (List.mem_cons_of_mem _ hq))]
      rfl

theorem Contains_blank_Join (l : List Str)
    (h : ∀ q ∈ l, Contains (' ' :: q) " * @returns \x7bPromise<string>\x7d".toList = false) :
    Contains (' ' :: Join l ", ".toList) " * @returns \x7bPromise<string>\x7d".toList
      = false := by
  induction l with
  | nil => decide
  | cons a rest ih =>
    cases rest with
    | nil => exact h a (by simp)
    | cons b r =>
      have e : ' ' :: Join (a :: b :: r) ", ".toList
          = (' ' :: a) ++ ',' :: (' ' :: Join (b :: r) ", ".toList) := by
        simp [Join]
      rw [e, Contains_sep (by decide) (by decide), h a (by simp),
        ih (fun q hq => h q (List.mem_cons_of_mem _ hq))]
      rfl

theorem foldl_snd {α β : Type} (g : β → α → β) (f : α → Str) (l : List α) :
    ∀ (b : β) (s : Str),
      (l.foldl (fun (st : β × Str) x => (g st.1 x, st.2 ++ f x)) (b, s)).2
        = s ++ (l.map f).flatten := by
  induction l with
  | nil => intro b s; simp
  | cons x xs ih =>
    intro b s
    simp only [List.foldl_cons, List.map_cons, List.flatten_cons]
    rw [ih, List.append_assoc]

theorem foldl_fst {α β γ : Type} (g : β → α → β) (h : β × γ → α → γ) (l : List α) :
    ∀ (b : β) (c : γ), (l.foldl (fun (st : β × γ) x => (g st.1 x, h st x)) (b, c)).1
      = l.foldl g b := by
  induction l with
  | nil => intro b c; rfl
  | cons x xs ih => intro b c; simp only [List.foldl_cons]; exact ih _ _

/-! ## The values `GenerateBinding` substitutes -/

theorem paramsLoop_snd (inputs : List Parameter) (models : List Str) :
    (paramsLoop inputs models).2
      = (inputs.map (fun input => paramLine input ++ "\n".toList)).flatten := by
  unfold paramsLoop
  have h := foldl_snd
    (fun (ms : List Str) (input : Parameter) =>
      if getPackageName input ≠ [] then ms ++ [getPackageName input] else ms)
    (fun input => " * @param ".toList ++ sanitiseJSVarName input.Name ++ " \x7b".toList
      ++ input.JSType ++ "\x7d\n".toList) inputs models []
  simp only [List.nil_append] at h
  rw [h]
  congr 1
  apply List.map_congr_left
  intro a _
  simp [paramLine, List.append_assoc]

theorem inputsLoop_snd (inputs : List Parameter) (models : List Str) :
    (inputsLoop inputs models).2
      = (inputs.map (fun input => sanitiseJSVarName input.Name ++ ", ".toList)).flatten := by
  unfold inputsLoop
  have h := foldl_snd
    (fun (ms : List Str) (input : Parameter) =>
      if getPackageName input ≠ [] then ms ++ [getPackageName input] else ms)
    (fun input => sanitiseJSVarName input.Name ++ ", ".toList) inputs models []
  simp only [List.nil_append] at h
  exact h

theorem returnsLoop_snd (outputs : List Parameter) (models : List Str) (returns : Str) :
    (returnsLoop outputs models returns).2
      = returns ++ (outputs.map (fun output => returnType output ++ ", ".toList)).flatten := by
  unfold returnsLoop
  exact foldl_snd
    (fun (ms : List Str) (output : Parameter) =>
      if getPackageName output ≠ [] then ms ++ [getPackageName output] else ms)
    (fun output => returnType output ++ ", ".toList) outputs models returns

theorem paramLine_ne_nil (input : Parameter) : paramLine input ≠ [] := by
  simp [paramLine]

theorem paramsOf_eq (m : BoundMethod) : paramsOf m = paramBlock m := by
  unfold paramsOf paramBlock
  rw [paramsLoop_snd]
  by_cases h : m.Inputs = []
  · rw [h]; rfl
  · rw [if_neg h]
    have hm : m.Inputs.map paramLine ≠ [] := by simpa using h
    have e : (m.Inputs.map (fun input => paramLine input ++ "\n".toList)).flatten
        = Join (m.Inputs.map paramLine) "\n".toList ++ "\n".toList := by
      rw [← flatten_map_append_sep _ _ hm, List.map_map]; rfl
    rw [e, TrimSuffix_append]
    have hne : Join (m.Inputs.map paramLine) "\n".toList ≠ [] :=
      Join_ne_nil _ _ hm (by
        intro x hx
        rcases List.mem_map.mp hx with ⟨i, _, rfl⟩
        exact paramLine_ne_nil i)
    have hlen : ¬ (Join (m.Inputs.map paramLine) "\n".toList).length = 0 := by
      rw [List.length_eq_zero]; exact hne
    simp only []
    rw [if_neg hlen]

theorem inputsOf_eq (m : BoundMethod) : inputsOf m = Join (paramNames m) ", ".toList := by
  unfold inputsOf paramNames
  rw [inputsLoop_snd]
  by_cases h : m.Inputs = []
  · rw [h]; rfl
  · have hm : m.Inputs.map (fun input => sanitiseJSVarName input.Name) ≠ [] := by simpa using h
    have e : (m.Inputs.map (fun input => sanitiseJSVarName input.Name ++ ", ".toList)).flatten
        = Join (m.Inputs.map (fun input => sanitiseJSVarName input.Name)) ", ".toList
          ++ ", ".toList := by
      rw [← flatten_map_append_sep _ _ hm, List.map_map]; rfl
    rw [e, TrimSuffix_append]

theorem returnsOf_eq (m : BoundMethod) : returnsOf m = returnsLine m := by
  unfold returnsOf returnsLine
  by_cases h : m.Outputs = []
  · rw [h]; rfl
  · have hl : ¬ m.Outputs.length = 0 := by simpa using h
    rw [if_neg h, if_neg hl, returnsLoop_snd]
    have hm : m.Outputs.map returnType ≠ [] := by simpa using h
    have e : (m.Outputs.map (fun output => returnType output ++ ", ".toList)).flatten
        = Join (m.Outputs.map returnType) ", ".toList ++ ", ".toList := by
      rw [← flatten_map_append_sep _ _ hm, List.map_map]; rfl
    rw [e, ← List.append_assoc, TrimSuffix_append]

theorem quoted_args (m : BoundMethod) :
    ("\"".toList ++ m.Name ++ "\"".toList) ++ argsOf m
      = Join (("\"".toList ++ m.Name ++ "\"".toList) :: paramNames m) ", ".toList := by
  unfold argsOf
  rw [inputsOf_eq]
  cases hn : paramNames m with
  | nil => simp [Join]
  | cons n r =>
    have hne : Join (n :: r) ", ".toList ≠ [] := by
      apply Join_ne_nil _ _ (by simp)
      intro x hx
      rw [← hn] at hx
      rcases List.mem_map.mp hx with ⟨p, _, rfl⟩
      exact sanitiseJSVarName_ne_nil _
    have hl : (Join (n :: r) ", ".toList).length > 0 := List.length_pos.mpr hne
    rw [if_pos hl]
    simp [Join]

/-! ## The stub, line by line -/

theorem GenerateBinding_fst (structName : Str) (method : BoundMethod) :
    (GenerateBinding structName method).1 = substituteFor structName method bindingTemplate := by
  unfold GenerateBinding substituteFor substituteAll paramsOf argsOf returnsOf inputsOf
  by_cases h : method.Outputs.length = 0
  · simp only [h, if_true]
  · simp only [h, if_false]

theorem substituteAll_newline (s m c p i a r x y : Str) :
    substituteAll s m c p i a r (x ++ '\n' :: y)
      = substituteAll s m c p i a r x ++ '\n' :: substituteAll s m c p i a r y := by
  unfold substituteAll
  simp only []
  rw [ReplaceAll_sep _ (by decide) (by decide), ReplaceAll_sep _ (by decide) (by decide),
    ReplaceAll_sep _ (by decide) (by decide), ReplaceAll_sep _ (by decide) (by decide),
    ReplaceAll_sep _ (by decide) (by decide), ReplaceAll_sep _ (by decide) (by decide),
    ReplaceAll_sep _ (by decide) (by decide)]

theorem stub_lines (s : Str) (m : BoundMethod) :
    (GenerateBinding s m).1
      = '\n' :: ("/**".toList ++ '\n' ::
        (substituteFor s m " * \x7b\x7bstructName\x7d\x7d.\x7b\x7bmethodName\x7d\x7d".toList ++ '\n' ::
        (substituteFor s m " * Comments".toList ++ '\n' ::
        (substituteFor s m " * @param name \x7bstring\x7d".toList ++ '\n' ::
        (substituteFor s m " * @returns \x7bPromise<string>\x7d".toList ++ '\n' ::
        (" **/".toList ++ '\n' ::
        (substituteFor s m "function \x7b\x7bmethodName\x7d\x7d(\x7b\x7binputs\x7d\x7d) \x7b".toList ++ '\n' ::
        (substituteFor s m "    return wails.Call(\x7b\x7bstructName\x7d\x7d(\"\x7b\x7bmethodName\x7d\x7d\"\x7b\x7bargs\x7d\x7d));".toList ++ '\n' ::
        ("\x7d".toList ++ '\n' :: []))))))))) := by
  have ht : bindingTemplate
      = [] ++ '\n' :: ("/**".toList ++ '\n' ::
        (" * \x7b\x7bstructName\x7d\x7d.\x7b\x7bmethodName\x7d\x7d".toList ++ '\n' ::
        (" * Comments".toList ++ '\n' ::
        (" * @param name \x7bstring\x7d".toList ++ '\n' ::
        (" * @returns \x7bPromise<string>\x7d".toList ++ '\n' ::
        (" **/".toList ++ '\n' ::
        ("function \x7b\x7bmethodName\x7d\x7d(\x7b\x7binputs\x7d\x7d) \x7b".toList ++ '\n' ::
        ("    return wails.Call(\x7b\x7bstructName\x7d\x7d(\"\x7b\x7bmethodName\x7d\x7d\"\x7b\x7bargs\x7d\x7d));".toList ++ '\n' ::
        ("\x7d".toList ++ '\n' :: []))))))))) := by
    decide
  have c0 : substituteFor s m [] = [] := rfl
  have c1 : substituteFor s m "/**".toList = "/**".toList := rfl
  have c6 : substituteFor s m " **/".toList = " **/".toList := rfl
  have c9 : substituteFor s m "\x7d".toList = "\x7d".toList := rfl
  rw [GenerateBinding_fst, ht]
  unfold substituteFor
  simp only [substituteAll_newline]
  unfold substituteFor at c0 c1 c6 c9
  rw [c0, c1, c6, c9]
  rfl

theorem returns_line (s : Str) (m : BoundMethod) :
    substituteFor s m " * @returns \x7bPromise<string>\x7d".toList = returnsOf m := by
  have h : substituteFor s m " * @returns \x7bPromise<string>\x7d".toList = returnsOf m ++ [] := rfl
  rw [h, List.append_nil]

/-! ## The return line -/

theorem stub_returns_line (structName : Str) (method : BoundMethod) :
    Contains (GenerateBinding structName method).1
      ("\n".toList ++ returnsLine method ++ "\n".toList) = true := by
  rw [stub_lines, returns_line, returnsOf_eq, Contains_iff]
  show ['\n'] ++ returnsLine method ++ ['\n'] <:+: _
  refine ⟨'\n' :: ("/**".toList ++ '\n' ::
        (substituteFor structName method
          " * \x7b\x7bstructName\x7d\x7d.\x7b\x7bmethodName\x7d\x7d".toList ++ '\n' ::
        (substituteFor structName method " * Comments".toList ++ '\n' ::
        (substituteFor structName method " * @param name \x7bstring\x7d".toList)))),
    (" **/".toList ++ '\n' ::
        (substituteFor structName method
          "function \x7b\x7bmethodName\x7d\x7d(\x7b\x7binputs\x7d\x7d) \x7b".toList ++ '\n' ::
        (substituteFor structName method
          "    return wails.Call(\x7b\x7bstructName\x7d\x7d(\"\x7b\x7bmethodName\x7d\x7d\"\x7b\x7bargs\x7d\x7d));".toList ++ '\n' ::
        ("\x7d".toList ++ '\n' :: [])))), ?_⟩
  simp only [List.append_assoc, List.cons_append, List.nil_append, List.singleton_append]

/-- C7: the stub rendered by `GenerateBinding` contains the return line
` * @returns {Promise<void>}` when the method has zero outputs, and otherwise
the line ` * @returns {Promise<J>}` where `J` is the outputs' type annotations
in declaration order, each `error` replaced by `void`, joined with `, `; so a
method whose sole output is `error` renders ` * @returns {Promise<void>}`.  It
holds for every service name and method: the restriction of the claim to
placeholder-free names is not needed. -/
theorem GenerateBinding_returns_line (structName : Str) (method : BoundMethod) :
    Contains (GenerateBinding structName method).1
      ("\n".toList ++ returnsLine method ++ "\n".toList) = true :=
  stub_returns_line structName method

/-- C6 (the claim fails): for the outputs `(int, error)` the stub has no line
` * @returns {Promise<int>}`; its return line is
` * @returns {Promise<int, void>}`. -/
theorem GenerateBinding_int_error :
    Contains (GenerateBinding "App".toList intError).1
        " * @returns \x7bPromise<int>\x7d".toList = false ∧
      Contains (GenerateBinding "App".toList intError).1
        "\n * @returns \x7bPromise<int, void>\x7d\n".toList = true := by
  decide

/-- C6, amended: for every method with exactly two outputs, the first with a
type annotation `t` other than `error` and the second with the annotation
`error`, the return line of the stub is ` * @returns {Promise<t, void>}`: the
error output contributes the annotation `void`. -/
theorem GenerateBinding_value_error (structName : Str) (method : BoundMethod)
    (first second : Parameter) (hout : method.Outputs = [first, second])
    (hfirst : first.JSType ≠ "error".toList) (hsecond : second.JSType = "error".toList) :
    Contains (GenerateBinding structName method).1
      ("\n * @returns \x7bPromise<".toList ++ first.JSType
        ++ ", void>\x7d\n".toList) = true := by
  have h := stub_returns_line structName method
  have e : "\n".toList ++ returnsLine method ++ "\n".toList
      = "\n * @returns \x7bPromise<".toList ++ first.JSType ++ ", void>\x7d\n".toList := by
    have h1 : returnType first = first.JSType := if_neg hfirst
    have h2 : returnType second = "void".toList := if_pos hsecond
    simp [returnsLine, hout, h1, h2, Join]
  rw [e] at h
  exact h

theorem GenerateBinding_value_error_witness :
    Contains (GenerateBinding "App".toList intError).1
      ("\n * @returns \x7bPromise<".toList ++ "int".toList
        ++ ", void>\x7d\n".toList) = true :=
  GenerateBinding_value_error "App".toList intError
    { Name := [], Typ := { IsStruct := false, Package := [] }, JSType := "int".toList }
    { Name := [], Typ := { IsStruct := false, Package := [] }, JSType := "error".toList }
    rfl (by decide) rfl

/-! ## The parameter block -/

theorem placeholderFree_iff (s : Str) :
    placeholderFree s = true ↔
      Contains s "\x7b\x7b".toList = false ∧ Contains s "Comments".toList = false ∧
      Contains s " * @param name \x7bstring\x7d".toList = false ∧
      Contains s " * @returns \x7bPromise<string>\x7d".toList = false := by
  simp only [placeholderFree, placeholderTexts, List.all_cons, List.all_nil, Bool.and_true,
    Bool.and_eq_true, Bool.not_eq_true']

theorem lineSafe_iff (m : BoundMethod) (s : Str) :
    lineSafe m s = true ↔
      Contains s "\x7b\x7b".toList = false ∧ Contains s "Comments".toList = false ∧
      untouched s " * @param name \x7bstring\x7d".toList (paramBlock m) = true ∧
      untouched s " * @returns \x7bPromise<string>\x7d".toList (returnsLine m) = true := by
  simp only [lineSafe, Bool.and_eq_true, Bool.not_eq_true', and_assoc]

theorem header_line (s : Str) (m : BoundMethod) (h : lineSafe m (headerLine s m) = true) :
    substituteFor s m " * \x7b\x7bstructName\x7d\x7d.\x7b\x7bmethodName\x7d\x7d".toList
      = headerLine s m := by
  have hL : headerLine s m = (" * ".toList ++ s) ++ '.' :: m.Name := by
    simp [headerLine]
  rw [hL] at h ⊢
  obtain ⟨h1, h3, h4, h7⟩ := (lineSafe_iff _ _).mp h
  have hA : Contains (" * ".toList ++ s) "\x7b\x7bmethodName\x7d\x7d".toList = false :=
    Contains_mono_left (List.prefix_append _ _).isInfix
      (Contains_mono_right (by decide) h1)
  have e1 : ReplaceAll " * \x7b\x7bstructName\x7d\x7d.\x7b\x7bmethodName\x7d\x7d".toList
      "\x7b\x7bstructName\x7d\x7d".toList s
      = (" * ".toList ++ s) ++ '.' :: "\x7b\x7bmethodName\x7d\x7d".toList := rfl
  have e2 : ReplaceAll "\x7b\x7bmethodName\x7d\x7d".toList "\x7b\x7bmethodName\x7d\x7d".toList
      m.Name = m.Name ++ [] := rfl
  unfold substituteFor substituteAll
  simp only []
  rw [paramsOf_eq, returnsOf_eq, e1, ReplaceAll_sep _ (by decide) (by decide), e2,
    List.append_nil,
    ReplaceAll_of_not_contains _ (by decide) hA,
    ReplaceAll_of_not_contains _ (by decide) h3,
    ReplaceAll_untouched (by decide) h4,
    ReplaceAll_of_not_contains _ (by decide) (Contains_mono_right (by decide) h1),
    ReplaceAll_of_not_contains _ (by decide) (Contains_mono_right (by decide) h1),
    ReplaceAll_untouched (by decide) h7]

theorem doc_line (s : Str) (m : BoundMethod) (h : lineSafe m (docLine m) = true) :
    substituteFor s m " * Comments".toList = docLine m := by
  obtain ⟨h1, _, h4, h7⟩ := (lineSafe_iff _ _).mp h
  have e : ReplaceAll (ReplaceAll (ReplaceAll " * Comments".toList
      "\x7b\x7bstructName\x7d\x7d".toList s) "\x7b\x7bmethodName\x7d\x7d".toList m.Name)
      "Comments".toList (TrimSpace m.DocComment)
      = " * ".toList ++ (TrimSpace m.DocComment ++ []) := rfl
  unfold substituteFor substituteAll
  simp only []
  rw [paramsOf_eq, returnsOf_eq, e, List.append_nil]
  unfold docLine at h1 h4 h7 ⊢
  rw [ReplaceAll_untouched (by decide) h4,
    ReplaceAll_of_not_contains _ (by decide) (Contains_mono_right (by decide) h1),
    ReplaceAll_of_not_contains _ (by decide) (Contains_mono_right (by decide) h1),
    ReplaceAll_untouched (by decide) h7]

theorem params_line (s : Str) (m : BoundMethod) (h : blockSafe m = true) :
    substituteFor s m " * @param name \x7bstring\x7d".toList = paramBlock m := by
  have h' : Contains (paramBlock m) "\x7b\x7binputs\x7d\x7d".toList = false ∧
      Contains (paramBlock m) "\x7b\x7bargs\x7d\x7d".toList = false ∧
      untouched (paramBlock m) " * @returns \x7bPromise<string>\x7d".toList
        (returnsLine m) = true := by
    simpa only [blockSafe, Bool.and_eq_true, Bool.not_eq_true', and_assoc] using h
  obtain ⟨h5, h6, h7⟩ := h'
  have e : ReplaceAll (ReplaceAll (ReplaceAll (ReplaceAll " * @param name \x7bstring\x7d".toList
      "\x7b\x7bstructName\x7d\x7d".toList s) "\x7b\x7bmethodName\x7d\x7d".toList m.Name)
      "Comments".toList (TrimSpace m.DocComment))
      " * @param name \x7bstring\x7d".toList (paramsOf m)
      = paramsOf m ++ [] := rfl
  unfold substituteFor substituteAll
  simp only []
  rw [e, List.append_nil, paramsOf_eq, returnsOf_eq,
    ReplaceAll_of_not_contains _ (by decide) h5,
    ReplaceAll_of_not_contains _ (by decide) h6,
    ReplaceAll_untouched (by decide) h7]

/-- C8 (the claim fails): the names, doc text and type annotations of
`braceType` contain none of the placeholder texts, yet its stub does not
contain the parameter line ` * @param value {{inputs}}}` of the claim: the
brace of the template and the annotation `{inputs}}` form the placeholder
`{{inputs}}`, and the line of the stub is ` * @param value value}`. -/
theorem GenerateBinding_brace_type :
    placeholderFreeInputs "App".toList braceType = true ∧
      Contains (GenerateBinding "App".toList braceType).1 (paramBlock braceType) = false ∧
      Contains (GenerateBinding "App".toList braceType).1
        "\n * @param value value\x7d\n".toList = true := by
  decide

/-- C8, amended: let `B` be the parameter block of the claim (one line
` * @param <sanitised name> {<type annotation>}` per input, in declaration
order, or the single line ` *` for a method without inputs).  When the header
line ` * S.M` and the doc-comment line (` * ` and the trimmed doc text)
contain neither `{{` nor `Comments`, and contain a line placeholder only if
the text replacing it is the placeholder itself, and `B` contains neither
`{{inputs}}` nor `{{args}}`, and contains the return placeholder only if the
return line is that very text, the stub starts with the opening line, the
header line and the doc-comment line, followed by exactly `B` and then the
return line.  A type annotation such as `{x}`, whose line contains `{{` but no
placeholder, is covered. -/
theorem GenerateBinding_param_block (structName : Str) (method : BoundMethod)
    (hheader : lineSafe method (headerLine structName method) = true)
    (hdoc : lineSafe method (docLine method) = true)
    (hblock : blockSafe method = true) :
    ∃ rest : Str, (GenerateBinding structName method).1
      = "\n/**\n".toList ++ headerLine structName method ++ "\n".toList ++ docLine method
        ++ "\n".toList ++ paramBlock method ++ "\n".toList ++ returnsLine method
        ++ "\n".toList ++ rest := by
  rw [stub_lines, returns_line, returnsOf_eq, header_line _ _ hheader, doc_line _ _ hdoc,
    params_line _ _ hblock]
  refine ⟨" **/".toList ++ '\n' ::
    (substituteFor structName method
      "function \x7b\x7bmethodName\x7d\x7d(\x7b\x7binputs\x7d\x7d) \x7b".toList ++ '\n' ::
    (substituteFor structName method
      "    return wails.Call(\x7b\x7bstructName\x7d\x7d(\"\x7b\x7bmethodName\x7d\x7d\"\x7b\x7bargs\x7d\x7d));".toList
      ++ '\n' :: ("\x7d".toList ++ ['\n']))), ?_⟩
  show _ = ['\n', '/', '*', '*', '\n'] ++ headerLine structName method ++ ['\n']
    ++ docLine method ++ ['\n'] ++ paramBlock method ++ ['\n'] ++ returnsLine method
    ++ ['\n'] ++ _
  simp only [List.append_assoc, List.cons_append, List.nil_append, List.singleton_append]
  rfl

theorem GenerateBinding_param_block_witness :
    ∃ rest : Str, (GenerateBinding "App".toList bracedAnnotation).1
      = "\n/**\n".toList ++ headerLine "App".toList bracedAnnotation ++ "\n".toList
        ++ docLine bracedAnnotation ++ "\n".toList ++ paramBlock bracedAnnotation
        ++ "\n".toList ++ returnsLine bracedAnnotation ++ "\n".toList ++ rest :=
  GenerateBinding_param_block "App".toList bracedAnnotation (by decide) (by decide)
    (by decide)

/-! ## The signature and the call -/

theorem nameSafe_iff (s : Str) :
    nameSafe s = true ↔
      Contains s "\x7b\x7b".toList = false ∧ Contains s "Comments".toList = false ∧
      Contains s "* @param name \x7bstring\x7d".toList = false ∧
      Contains s "* @returns \x7bPromise<string>\x7d".toList = false := by
  simp only [nameSafe, bareTexts, List.all_cons, List.all_nil, Bool.and_true,
    Bool.and_eq_true, Bool.not_eq_true']

theorem sanitised_args {name : Str} (h : nameSafe name = true) :
    Contains (sanitiseJSVarName name) "\x7b\x7bargs\x7d\x7d".toList = false := by
  obtain ⟨h1, _, _, _⟩ := (nameSafe_iff _).mp h
  have hn : Contains name "\x7b\x7bargs\x7d\x7d".toList = false :=
    Contains_mono_right (by decide) h1
  unfold sanitiseJSVarName
  by_cases hr : Contains reservedList name = true
  · rw [if_pos hr]
    show Contains ([] ++ '_' :: name) _ = false
    rw [Contains_sep (by decide) (by decide), hn]
    rfl
  · rw [if_neg hr]; exact hn

theorem sanitised_returns {name : Str} (h : nameSafe name = true) :
    Contains (' ' :: sanitiseJSVarName name) " * @returns \x7bPromise<string>\x7d".toList
      = false := by
  obtain ⟨_, _, _, h7⟩ := (nameSafe_iff _).mp h
  unfold sanitiseJSVarName
  by_cases hr : Contains reservedList name = true
  · rw [if_pos hr]
    show Contains ([' '] ++ '_' :: name) _ = false
    rw [Contains_sep (by decide) (by decide),
      Contains_mono_right (s := name) (by decide) h7]
    rfl
  · rw [if_neg hr]
    exact Contains_cons_of_tail ' ' ' ' h7

theorem inputs_args (m : BoundMethod) (h : ∀ p ∈ m.Inputs, nameSafe p.Name = true) :
    Contains (inputsOf m) "\x7b\x7bargs\x7d\x7d".toList = false := by
  rw [inputsOf_eq]
  apply Contains_Join (by decide) (by decide) (by decide)
  intro q hq
  rcases List.mem_map.mp hq with ⟨p, hp, rfl⟩
  exact sanitised_args (h p hp)

theorem blank_inputs_returns (m : BoundMethod) (h : ∀ p ∈ m.Inputs, nameSafe p.Name = true) :
    Contains (' ' :: inputsOf m) " * @returns \x7bPromise<string>\x7d".toList = false := by
  rw [inputsOf_eq]
  apply Contains_blank_Join
  intro q hq
  rcases List.mem_map.mp hq with ⟨p, hp, rfl⟩
  exact sanitised_returns (h p hp)

theorem inputs_returns (m : BoundMethod) (h : ∀ p ∈ m.Inputs, nameSafe p.Name = true) :
    Contains (inputsOf m) " * @returns \x7bPromise<string>\x7d".toList = false :=
  Contains_mono_left (List.suffix_cons ' ' _).isInfix (blank_inputs_returns m h)

theorem args_returns (m : BoundMethod) (h : ∀ p ∈ m.Inputs, nameSafe p.Name = true) :
    Contains (argsOf m) " * @returns \x7bPromise<string>\x7d".toList = false := by
  unfold argsOf
  by_cases hl : (inputsOf m).length > 0
  · rw [if_pos hl]
    show Contains ([] ++ ',' :: (' ' :: inputsOf m)) _ = false
    rw [Contains_sep (by decide) (by decide), blank_inputs_returns m h]
    rfl
  · rw [if_neg hl]; exact inputs_returns m h

theorem function_name {name : Str} (h : nameSafe name = true) :
    Contains ("function ".toList ++ name) "Comments".toList = false ∧
    Contains ("function ".toList ++ name) " * @param name \x7bstring\x7d".toList = false ∧
    Contains ("function ".toList ++ name) "\x7b\x7binputs\x7d\x7d".toList = false ∧
    Contains ("function ".toList ++ name) "\x7b\x7bargs\x7d\x7d".toList = false ∧
    Contains ("function ".toList ++ name) " * @returns \x7bPromise<string>\x7d".toList
      = false := by
  obtain ⟨h1, h3, h4, h7⟩ := (nameSafe_iff _).mp h
  have e : "function ".toList ++ name = "function".toList ++ ' ' :: name := rfl
  refine ⟨?_, ?_, ?_, ?_, ?_⟩
  · rw [e, Contains_sep (by decide) (by decide), h3]; rfl
  · rw [e]
    show Contains _ (' ' :: "* @param name \x7bstring\x7d".toList) = false
    rw [Contains_skip _ _ _ (by decide)]
    exact Contains_cons_of_tail _ _ h4
  · rw [e, Contains_sep (by decide) (by decide), Contains_mono_right (s := name) (by decide) h1]
    rfl
  · rw [e, Contains_sep (by decide) (by decide), Contains_mono_right (s := name) (by decide) h1]
    rfl
  · rw [e]
    show Contains _ (' ' :: "* @returns \x7bPromise<string>\x7d".toList) = false
    rw [Contains_skip _ _ _ (by decide)]
    exact Contains_cons_of_tail _ _ h7

theorem signature_line (s : Str) (m : BoundMethod) (hM : nameSafe m.Name = true)
    (hN : ∀ p ∈ m.Inputs, nameSafe p.Name = true) :
    substituteFor s m "function \x7b\x7bmethodName\x7d\x7d(\x7b\x7binputs\x7d\x7d) \x7b".toList
      = signatureLine m := by
  obtain ⟨f3, f4, f5, f6, f7⟩ := function_name hM
  have i6 := inputs_args m hN
  have i7 := inputs_returns m hN
  have e12 : ReplaceAll (ReplaceAll
      "function \x7b\x7bmethodName\x7d\x7d(\x7b\x7binputs\x7d\x7d) \x7b".toList
      "\x7b\x7bstructName\x7d\x7d".toList s) "\x7b\x7bmethodName\x7d\x7d".toList m.Name
      = ("function ".toList ++ m.Name) ++ '(' :: "\x7b\x7binputs\x7d\x7d) \x7b".toList := rfl
  have e5 : ReplaceAll "\x7b\x7binputs\x7d\x7d) \x7b".toList "\x7b\x7binputs\x7d\x7d".toList
      (inputsOf m) = inputsOf m ++ ')' :: " \x7b".toList := rfl
  unfold substituteFor substituteAll
  simp only []
  rw [e12]
  simp (disch := first | decide | assumption) only
    [ReplaceAll_sep, ReplaceAll_of_not_contains, e5]
  rw [inputsOf_eq]
  simp [signatureLine]

theorem isolated_name {name : Str} (h : nameSafe name = true) :
    Contains name "\x7b\x7bmethodName\x7d\x7d".toList = false ∧
    Contains name "Comments".toList = false ∧
    Contains name " * @param name \x7bstring\x7d".toList = false ∧
    Contains name "\x7b\x7binputs\x7d\x7d".toList = false ∧
    Contains name "\x7b\x7bargs\x7d\x7d".toList = false ∧
    Contains name " * @returns \x7bPromise<string>\x7d".toList = false := by
  obtain ⟨h1, h3, h4, h7⟩ := (nameSafe_iff _).mp h
  exact ⟨Contains_mono_right (by decide) h1, h3, Contains_mono_right (by decide) h4,
    Contains_mono_right (by decide) h1, Contains_mono_right (by decide) h1,
    Contains_mono_right (by decide) h7⟩

theorem call_line (s : Str) (m : BoundMethod) (hS : nameSafe s = true)
    (hM : nameSafe m.Name = true) (hN : ∀ p ∈ m.Inputs, nameSafe p.Name = true) :
    substituteFor s m
        "    return wails.Call(\x7b\x7bstructName\x7d\x7d(\"\x7b\x7bmethodName\x7d\x7d\"\x7b\x7bargs\x7d\x7d));".toList
      = "    ".toList ++ callLine s m := by
  obtain ⟨s2, s3, s4, s5, s6, s7⟩ := isolated_name hS
  obtain ⟨_, m3, m4, m5, m6, m7⟩ := isolated_name hM
  have a7 := args_returns m hN
  have e1 : ReplaceAll
      "    return wails.Call(\x7b\x7bstructName\x7d\x7d(\"\x7b\x7bmethodName\x7d\x7d\"\x7b\x7bargs\x7d\x7d));".toList
      "\x7b\x7bstructName\x7d\x7d".toList s
      = "    return wails.Call".toList ++ '(' :: (s ++ '(' ::
          ([] ++ '"' :: "\x7b\x7bmethodName\x7d\x7d\"\x7b\x7bargs\x7d\x7d));".toList)) := rfl
  have e2 : ReplaceAll "\x7b\x7bmethodName\x7d\x7d\"\x7b\x7bargs\x7d\x7d));".toList
      "\x7b\x7bmethodName\x7d\x7d".toList m.Name
      = m.Name ++ '"' :: "\x7b\x7bargs\x7d\x7d));".toList := rfl
  have e6 : ReplaceAll "\x7b\x7bargs\x7d\x7d));".toList "\x7b\x7bargs\x7d\x7d".toList (argsOf m)
      = argsOf m ++ ')' :: ");".toList := rfl
  unfold substituteFor substituteAll
  simp only []
  rw [e1]
  simp (disch := first | decide | assumption) only
    [ReplaceAll_sep, ReplaceAll_of_not_contains, e2, e6]
  have q := quoted_args m
  unfold callLine
  rw [← q]
  simp

/-- The first scenario of the specification: `Greet(name)` renders
`function Greet(name) {` and forwards `name` to the call. -/
theorem greet_lines :
    signatureLine greet = "function Greet(name) \x7b".toList ∧
      callLine "App".toList greet = "return wails.Call(App(\"Greet\", name));".toList ∧
      paramBlock greet = " * @param name \x7bstring\x7d".toList := by
  decide

/-- The third scenario of the specification: an input named `delete` is
rendered as `_delete` in the signature, the call and the doc line. -/
theorem remove_lines :
    signatureLine remove = "function Remove(_delete) \x7b".toList ∧
      callLine "App".toList remove
        = "return wails.Call(App(\"Remove\", _delete));".toList ∧
      paramBlock remove = " * @param _delete \x7bstring\x7d".toList ∧
      Contains (GenerateBinding "App".toList remove).1 "(delete".toList = false := by
  decide

/-- C9 (the claim fails): the names of `starName` contain none of the
placeholder texts, yet its stub does not contain the signature
`function * @param name {string}() {` of the claim: the blank of the template
and the method name form the placeholder ` * @param name {string}`, which is
replaced by the parameter block. -/
theorem GenerateBinding_star_name :
    placeholderFreeInputs "App".toList starName = true ∧
      Contains (GenerateBinding "App".toList starName).1 (signatureLine starName) = false := by
  decide

/-- C9, amended: when the service name, the method name and the input names
contain none of `{{`, `Comments`, `* @param name {string}` and
`* @returns {Promise<string>}` (the two line placeholders taken without their
leading blank), the stub contains the signature `function M(p1, ..., pk) {` and
the call `return wails.Call(S("M", p1, ..., pk));`, each on a line of its own,
where `pi` is the sanitised name of the i-th input. -/
theorem GenerateBinding_signature_call (structName : Str) (method : BoundMethod)
    (hstruct : nameSafe structName = true) (hmethod : nameSafe method.Name = true)
    (hinputs : ∀ p ∈ method.Inputs, nameSafe p.Name = true) :
    Contains (GenerateBinding structName method).1
        ("\n".toList ++ signatureLine method ++ "\n".toList) = true ∧
      Contains (GenerateBinding structName method).1
        ("\n    ".toList ++ callLine structName method ++ "\n".toList) = true := by
  rw [stub_lines, signature_line _ _ hmethod hinputs,
    call_line _ _ hstruct hmethod hinputs, Contains_iff, Contains_iff]
  constructor
  · refine ⟨'\n' :: ("/**".toList ++ '\n' ::
        (substituteFor structName method
          " * \x7b\x7bstructName\x7d\x7d.\x7b\x7bmethodName\x7d\x7d".toList ++ '\n' ::
        (substituteFor structName method " * Comments".toList ++ '\n' ::
        (substituteFor structName method " * @param name \x7bstring\x7d".toList ++ '\n' ::
        (substituteFor structName method " * @returns \x7bPromise<string>\x7d".toList ++ '\n' ::
        " **/".toList))))),
      "    ".toList ++ callLine structName method ++ '\n' :: ("\x7d".toList ++ '\n' :: []), ?_⟩
    show _ ++ (['\n'] ++ signatureLine method ++ ['\n']) ++ _ = _
    simp only [List.append_assoc, List.cons_append, List.nil_append, List.singleton_append]
  · refine ⟨'\n' :: ("/**".toList ++ '\n' ::
        (substituteFor structName method
          " * \x7b\x7bstructName\x7d\x7d.\x7b\x7bmethodName\x7d\x7d".toList ++ '\n' ::
        (substituteFor structName method " * Comments".toList ++ '\n' ::
        (substituteFor structName method " * @param name \x7bstring\x7d".toList ++ '\n' ::
        (substituteFor structName method " * @returns \x7bPromise<string>\x7d".toList ++ '\n' ::
        (" **/".toList ++ '\n' :: signatureLine method)))))),
      "\x7d".toList ++ '\n' :: [], ?_⟩
    show _ ++ (['\n', ' ', ' ', ' ', ' '] ++ callLine structName method ++ ['\n']) ++ _ = _
    simp only [List.append_assoc, List.cons_append, List.nil_append, List.singleton_append]
    rfl

theorem GenerateBinding_signature_call_witness :
    Contains (GenerateBinding "App".toList greet).1
        ("\n".toList ++ signatureLine greet ++ "\n".toList) = true ∧
      Contains (GenerateBinding "App".toList greet).1
        ("\n    ".toList ++ callLine "App".toList greet ++ "\n".toList) = true :=
  GenerateBinding_signature_call "App".toList greet (by decide) (by decide) (by decide)

/-! ## Package names -/

/-- C2 (the code departs from the claim): on the pairwise-distinct identifiers
`models2`, `github.com/x/models`, `github.com/y/models`, taken in this order,
`normalisePackageNames` maps both `models2` and `github.com/y/models` to the
display name `models2`: the suffixed name is not checked against the names
already assigned. -/
theorem normalisePackageNames_not_injective :
    collidingNames.Nodup ∧
      getStr (normalisePackageNames collidingNames) "models2".toList = "models2".toList ∧
      getStr (normalisePackageNames collidingNames) "github.com/y/models".toList
        = "models2".toList := by
  decide

/-! ## The models of a method and of a package -/

theorem foldl_models (l : List Parameter) : ∀ models : List Str,
    l.foldl (fun (ms : List Str) (p : Parameter) =>
      if getPackageName p ≠ [] then ms ++ [getPackageName p] else ms) models
      = models ++ structPackages l := by
  induction l with
  | nil => intro models; simp [structPackages]
  | cons p ps ih =>
    intro models
    simp only [List.foldl_cons]
    rw [ih]
    by_cases hp : getPackageName p = []
    · simp [structPackages, hp]
    · simp [structPackages, hp]

theorem paramsLoop_fst (inputs : List Parameter) (models : List Str) :
    (paramsLoop inputs models).1 = models ++ structPackages inputs := by
  unfold paramsLoop
  rw [← foldl_models]
  exact foldl_fst (fun (ms : List Str) (p : Parameter) =>
      if getPackageName p ≠ [] then ms ++ [getPackageName p] else ms)
    (fun st input => st.2 ++ (" * @param ".toList ++ sanitiseJSVarName input.Name
      ++ " \x7b".toList ++ input.JSType ++ "\x7d\n".toList)) inputs models []

theorem inputsLoop_fst (inputs : List Parameter) (models : List Str) :
    (inputsLoop inputs models).1 = models ++ structPackages inputs := by
  unfold inputsLoop
  rw [← foldl_models]
  exact foldl_fst (fun (ms : List Str) (p : Parameter) =>
      if getPackageName p ≠ [] then ms ++ [getPackageName p] else ms)
    (fun st input => st.2 ++ (sanitiseJSVarName input.Name ++ ", ".toList)) inputs models []

theorem returnsLoop_fst (outputs : List Parameter) (models : List Str) (returns : Str) :
    (returnsLoop outputs models returns).1 = models ++ structPackages outputs := by
  unfold returnsLoop
  rw [← foldl_models]
  exact foldl_fst (fun (ms : List Str) (p : Parameter) =>
      if getPackageName p ≠ [] then ms ++ [getPackageName p] else ms)
    (fun st output => st.2 ++ ((if output.JSType = "error".toList then "void".toList
      else output.JSType) ++ ", ".toList)) outputs models returns

theorem GenerateBinding_snd (structName : Str) (method : BoundMethod) :
    (GenerateBinding structName method).2
      = Uniq (structPackages method.Inputs ++ structPackages method.Inputs
          ++ structPackages method.Outputs) := by
  unfold GenerateBinding
  simp only []
  by_cases h : method.Outputs.length = 0
  · have ho : method.Outputs = [] := List.length_eq_zero.mp h
    simp only [h, if_true, inputsLoop_fst, paramsLoop_fst, List.nil_append]
    rw [ho]
    simp [structPackages]
  · simp only [h, if_false, returnsLoop_fst, inputsLoop_fst, paramsLoop_fst, List.nil_append]

theorem mem_uniqFrom (x : Str) (l : List Str) :
    ∀ seen : List Str, x ∈ uniqFrom seen l ↔ x ∈ l ∧ x ∉ seen := by
  induction l with
  | nil => intro seen; simp [uniqFrom]
  | cons y ys ih =>
    intro seen
    unfold uniqFrom
    by_cases hy : y ∈ seen
    · rw [if_pos hy, ih]
      constructor
      · rintro ⟨h1, h2⟩; exact ⟨List.mem_cons_of_mem _ h1, h2⟩
      · rintro ⟨h1, h2⟩
        rcases List.mem_cons.mp h1 with e | h1
        · subst e; exact absurd hy h2
        · exact ⟨h1, h2⟩
    · rw [if_neg hy, List.mem_cons, ih]
      constructor
      · rintro (e | ⟨h1, h2⟩)
        · subst e; exact ⟨List.mem_cons_self _ _, hy⟩
        · exact ⟨List.mem_cons_of_mem _ h1, fun hs => h2 (List.mem_cons_of_mem _ hs)⟩
      · rintro ⟨h1, h2⟩
        by_cases e : x = y
        · exact Or.inl e
        · rcases List.mem_cons.mp h1 with e' | h1
          · exact absurd e' e
          · refine Or.inr ⟨h1, fun hs => ?_⟩
            rcases List.mem_cons.mp hs with e' | hs
            · exact e e'
            · exact h2 hs

theorem mem_Uniq (x : Str) (l : List Str) : x ∈ Uniq l ↔ x ∈ l := by
  unfold Uniq
  rw [mem_uniqFrom]
  simp

theorem mem_sortStrings (x : Str) (l : List Str) : x ∈ sortStrings l ↔ x ∈ l :=
  (List.perm_insertionSort _ l).mem_iff

theorem mem_sortMethods (m : BoundMethod) (l : List BoundMethod) :
    m ∈ sortMethods l ↔ m ∈ l :=
  (List.perm_insertionSort _ l).mem_iff

theorem getPackageName_ne_nil (p : Parameter) (h : p.Typ.IsStruct = true) :
    getPackageName p ≠ [] := by
  unfold getPackageName
  simp only [h, Bool.not_true, Bool.false_eq_true, if_false]
  by_cases hp : p.Typ.Package = []
  · rw [if_pos hp]; decide
  · rw [if_neg hp]; exact hp

theorem mem_GenerateBinding_snd (structName : Str) (method : BoundMethod) (p : Parameter)
    (hp : p ∈ method.Inputs ++ method.Outputs) (hs : p.Typ.IsStruct = true) :
    getPackageName p ∈ (GenerateBinding structName method).2 := by
  rw [GenerateBinding_snd, mem_Uniq]
  have hne := getPackageName_ne_nil p hs
  rcases List.mem_append.mp hp with h | h
  · apply List.mem_append_left
    apply List.mem_append_left
    exact List.mem_filter.mpr ⟨List.mem_map.mpr ⟨p, h, rfl⟩, by simpa using hne⟩
  · apply List.mem_append_right
    exact List.mem_filter.mpr ⟨List.mem_map.mpr ⟨p, h, rfl⟩, by simpa using hne⟩

theorem mem_allModelsOf (packageBindings : GoMap (List BoundMethod)) (structName : Str)
    (hsn : structName ∈ Keys packageBindings) (method : BoundMethod)
    (hm : method ∈ getList packageBindings structName) (p : Parameter)
    (hp : p ∈ method.Inputs ++ method.Outputs) (hs : p.Typ.IsStruct = true) :
    getPackageName p ∈ allModelsOf packageBindings := by
  unfold allModelsOf
  rw [List.mem_flatMap]
  refine ⟨structName, (mem_sortStrings _ _).mpr hsn, ?_⟩
  rw [List.mem_flatMap]
  exact ⟨method, (mem_sortMethods _ _).mpr hm, mem_GenerateBinding_snd _ _ p hp hs⟩

theorem importNames_eq (norm : GoMap Str) (allModels : List Str) :
    importNames norm allModels = sortStrings ((Uniq allModels).map (getStr norm)) := by
  unfold importNames
  simp only []
  congr 1
  have h : ∀ (l acc : List Str),
      l.foldl (fun models model => models ++ [getStr norm model]) acc
        = acc ++ l.map (getStr norm) := by
    intro l
    induction l with
    | nil => intro acc; simp
    | cons x xs ih => intro acc; simp only [List.foldl_cons, List.map_cons]; rw [ih]; simp
  rw [h]; rfl

theorem mem_importNames (norm : GoMap Str) (allModels : List Str) (model : Str)
    (h : model ∈ allModels) : getStr norm model ∈ importNames norm allModels := by
  rw [importNames_eq, mem_sortStrings]
  exact List.mem_map.mpr ⟨model, (mem_Uniq _ _).mpr h, rfl⟩

/-! ## The module texts -/

theorem getStr_setStr_same (m : GoMap Str) (k v : Str) : getStr (setStr m k v) k = v := by
  induction m with
  | nil => simp [setStr, getStr]
  | cons e rest ih =>
    obtain ⟨k1, v1⟩ := e
    unfold setStr
    by_cases h : k1 = k
    · rw [if_pos h]; simp [getStr]
    · rw [if_neg h]; simp [getStr, h, ih]

theorem getStr_setStr_other (m : GoMap Str) (k v k2 : Str) (hk : k2 ≠ k) :
    getStr (setStr m k v) k2 = getStr m k2 := by
  induction m with
  | nil => simp [setStr, getStr, Ne.symm hk]
  | cons e rest ih =>
    obtain ⟨k1, v1⟩ := e
    unfold setStr
    by_cases h : k1 = k
    · rw [if_pos h]
      have h2 : ¬ k1 = k2 := by rw [h]; exact Ne.symm hk
      simp [getStr, Ne.symm hk, h2]
    · rw [if_neg h]
      by_cases h2 : k1 = k2
      · simp [getStr, h2]
      · simp [getStr, h2, ih]

theorem MapLe_refl (r : GoMap Str) : MapLe r r := fun _ => List.infix_refl _

theorem MapLe_trans {r1 r2 r3 : GoMap Str} (h12 : MapLe r1 r2) (h23 : MapLe r2 r3) :
    MapLe r1 r3 := fun k => (h12 k).trans (h23 k)

theorem MapLe_setStr (r : GoMap Str) (key v : Str) (h : getStr r key <:+: v) :
    MapLe r (setStr r key v) := by
  intro k
  by_cases hk : k = key
  · rw [hk, getStr_setStr_same]; exact h
  · rw [getStr_setStr_other _ _ _ _ hk]

theorem MapLe_appendAt (r : GoMap Str) (key text : Str) : MapLe r (appendAt r key text) :=
  MapLe_setStr r key _ (List.prefix_append _ _).isInfix

theorem foldl_MapLe {α : Type} (f : GoMap Str → α → GoMap Str)
    (hf : ∀ r x, MapLe r (f r x)) (l : List α) : ∀ r, MapLe r (l.foldl f r) := by
  induction l with
  | nil => intro r; exact MapLe_refl r
  | cons x xs ih => intro r; exact MapLe_trans (hf r x) (ih (f r x))

theorem foldl_pair_MapLe {α β : Type} (f : GoMap Str × β → α → GoMap Str × β)
    (hf : ∀ st x, MapLe st.1 (f st x).1) (l : List α) :
    ∀ st, MapLe st.1 (l.foldl f st).1 := by
  induction l with
  | nil => intro st; exact MapLe_refl _
  | cons x xs ih => intro st; exact MapLe_trans (hf st x) (ih (f st x))

theorem stubsLoop_MapLe (key : Str) (pb : GoMap (List BoundMethod)) (names : List Str)
    (r : GoMap Str) : MapLe r (stubsLoop key pb names r).1 := by
  unfold stubsLoop
  refine foldl_pair_MapLe _ ?_ names (r, [])
  intro st structName
  refine MapLe_trans (MapLe_appendAt st.1 key (GenerateHelper key structName)) ?_
  exact foldl_pair_MapLe _ (fun st2 method => MapLe_appendAt st2.1 key _) _
    (appendAt st.1 key (GenerateHelper key structName), st.2)

theorem stubsLoop_snd (key : Str) (pb : GoMap (List BoundMethod)) (names : List Str)
    (r : GoMap Str) :
    (stubsLoop key pb names r).2
      = names.flatMap (fun structName =>
          (sortMethods (getList pb structName)).flatMap (fun method =>
            (GenerateBinding structName method).2)) := by
  have inner : ∀ (structName : Str) (ms : List BoundMethod) (st : GoMap Str × List Str),
      (ms.foldl (fun (st : GoMap Str × List Str) method =>
        (appendAt st.1 key (GenerateBinding structName method).1,
          st.2 ++ (GenerateBinding structName method).2)) st).2
        = st.2 ++ ms.flatMap (fun method => (GenerateBinding structName method).2) := by
    intro structName ms
    induction ms with
    | nil => intro st; simp
    | cons m rest ih => intro st; simp only [List.foldl_cons, List.flatMap_cons]; rw [ih]; simp
  have outer : ∀ (l : List Str) (st : GoMap Str × List Str),
      (l.foldl (fun (st : GoMap Str × List Str) structName =>
        (sortMethods (getList pb structName)).foldl
          (fun (st : GoMap Str × List Str) method =>
            (appendAt st.1 key (GenerateBinding structName method).1,
              st.2 ++ (GenerateBinding structName method).2))
          (appendAt st.1 key (GenerateHelper key structName), st.2)) st).2
        = st.2 ++ l.flatMap (fun structName =>
            (sortMethods (getList pb structName)).flatMap (fun method =>
              (GenerateBinding structName method).2)) := by
    intro l
    induction l with
    | nil => intro st; simp
    | cons x xs ih =>
      intro st
      simp only [List.foldl_cons, List.flatMap_cons]
      rw [ih, inner]
      simp
  unfold stubsLoop
  exact (outer names (r, [])).trans (by simp)

theorem namespaceLoop_MapLe (key : Str) (pb : GoMap (List BoundMethod)) (names : List Str)
    (r : GoMap Str) : MapLe r (namespaceLoop key pb names r) := by
  unfold namespaceLoop
  refine foldl_MapLe _ ?_ names r
  intro r1 structName
  simp only []
  refine MapLe_trans ?_ (MapLe_appendAt _ _ _)
  refine MapLe_trans ?_ (foldl_MapLe _ (fun r2 method => MapLe_appendAt r2 key _) _ _)
  exact MapLe_appendAt _ _ _

theorem generatePackage_MapLe (norm : GoMap Str) (b : BindingsMap) (r : GoMap Str)
    (packageName : Str) : MapLe r (generatePackage norm b r packageName) := by
  unfold generatePackage
  simp only []
  have h5 : MapLe r (appendAt (namespaceLoop (getStr norm packageName)
      (getList b packageName) (sortStrings (Keys (getList b packageName)))
      (appendAt (appendAt (stubsLoop (getStr norm packageName) (getList b packageName)
        (sortStrings (Keys (getList b packageName))) r).1 (getStr norm packageName)
        "\nwindow.go = window.go || \x7b\x7d;\n".toList) (getStr norm packageName)
        ("window.go.".toList ++ getStr norm packageName ++ " = \x7b\n".toList)))
      (getStr norm packageName) "\x7d;\n".toList) := by
    refine MapLe_trans ?_ (MapLe_appendAt _ _ _)
    refine MapLe_trans ?_ (namespaceLoop_MapLe _ _ _ _)
    refine MapLe_trans ?_ (MapLe_appendAt _ _ _)
    refine MapLe_trans ?_ (MapLe_appendAt _ _ _)
    exact stubsLoop_MapLe _ _ _ r
  refine MapLe_trans ?_ (MapLe_setStr _ _ _ (List.suffix_append _ _).isInfix)
  split
  · refine MapLe_trans ?_ (MapLe_setStr _ _ _ (List.suffix_append _ _).isInfix)
    exact MapLe_trans h5 (MapLe_appendAt _ _ _)
  · exact h5

theorem generatePackage_import (norm : GoMap Str) (b : BindingsMap) (r : GoMap Str)
    (packageName : Str) (h : allModelsOf (getList b packageName) ≠ []) :
    importStatement (importNames norm (allModelsOf (getList b packageName)))
      <:+: getStr (generatePackage norm b r packageName) (getStr norm packageName) := by
  have hl : (allModelsOf (getList b packageName)).length > 0 := List.length_pos.mpr h
  unfold generatePackage
  simp only []
  rw [getStr_setStr_same, stubsLoop_snd]
  rw [show (sortStrings (Keys (getList b packageName))).flatMap (fun structName =>
      (sortMethods (getList (getList b packageName) structName)).flatMap (fun method =>
        (GenerateBinding structName method).2)) = allModelsOf (getList b packageName) from rfl]
  rw [if_pos hl, getStr_setStr_same]
  unfold importStatement
  exact ((List.prefix_append _ _).trans (List.prefix_append _ _)).isInfix.trans
    (List.suffix_append header _).isInfix

theorem foldl_keeps {α : Type} (f : GoMap Str → α → GoMap Str)
    (hf : ∀ r x, MapLe r (f r x)) (l : List α) (x : α) (hx : x ∈ l) (key t : Str)
    (ht : ∀ r, t <:+: getStr (f r x) key) : ∀ r, t <:+: getStr (l.foldl f r) key := by
  induction l with
  | nil => exact absurd hx (List.not_mem_nil _)
  | cons y ys ih =>
    intro r
    rcases List.mem_cons.mp hx with e | h
    · subst e
      exact (ht r).trans (foldl_MapLe f hf ys (f r x) key)
    · exact ih h (f r y)

/-- C10 (the claim fails): the package `main` of `selfModel` has the display
name `main`, and the import statement of its module lists `main`. -/
theorem GenerateBindings_self_import :
    getStr (normalisePackageNames (Keys selfModel)) "main".toList = "main".toList ∧
      Contains (getStr (GenerateBindings selfModel) "main".toList)
        "import \x7bmain\x7d from './models';\n".toList = true := by
  decide

/-- C10, amended: for every bindings collection, every target package `P` in
it and every struct-typed input or output of a method of `P`, the module text
returned for `P` contains an import statement from `./models` that lists the
display name of the origin package of that input or output.  The origin package
is not compared with `P`: when the struct type originates from `P` itself, the
statement lists the display name of `P`. -/
theorem GenerateBindings_imports_origin (bindings : BindingsMap) (packageName : Str)
    (hpackage : packageName ∈ Keys bindings) (structName : Str)
    (hstruct : structName ∈ Keys (getList bindings packageName)) (method : BoundMethod)
    (hmethod : method ∈ getList (getList bindings packageName) structName) (p : Parameter)
    (hp : p ∈ method.Inputs ++ method.Outputs) (hs : p.Typ.IsStruct = true) :
    getStr (normalisePackageNames (Keys bindings)) (getPackageName p)
        ∈ importNames (normalisePackageNames (Keys bindings))
            (allModelsOf (getList bindings packageName)) ∧
      Contains
        (getStr (GenerateBindings bindings)
          (getStr (normalisePackageNames (Keys bindings)) packageName))
        (importStatement (importNames (normalisePackageNames (Keys bindings))
          (allModelsOf (getList bindings packageName)))) = true := by
  have hmem := mem_allModelsOf _ structName hstruct method hmethod p hp hs
  refine ⟨mem_importNames _ _ _ hmem, ?_⟩
  rw [Contains_iff]
  unfold GenerateBindings
  simp only []
  exact foldl_keeps _ (generatePackage_MapLe _ bindings) _ packageName
    ((mem_sortStrings _ _).mpr hpackage) _ _
    (fun r => generatePackage_import _ bindings r packageName (List.ne_nil_of_mem hmem)) []

theorem GenerateBindings_imports_origin_witness :
    getStr (normalisePackageNames (Keys selfModel)) (getPackageName personParam)
        ∈ importNames (normalisePackageNames (Keys selfModel))
            (allModelsOf (getList selfModel "main".toList)) ∧
      Contains
        (getStr (GenerateBindings selfModel)
          (getStr (normalisePackageNames (Keys selfModel)) "main".toList))
        (importStatement (importNames (normalisePackageNames (Keys selfModel))
          (allModelsOf (getList selfModel "main".toList)))) = true :=
  GenerateBindings_imports_origin selfModel "main".toList (by decide) "App".toList
    (by decide) saveMethod (by decide) personParam (by decide) rfl

/-- C1 (the code departs from the claim): the same two packages, presented in
the two possible iteration orders, get different display names
(`github.com/x/models` is `models` in one order and `models2` in the other) and
different module texts under the display name `models`: the display names are
assigned in iteration order, before the package names are sorted. -/
theorem GenerateBindings_order_dependent :
    getStr (normalisePackageNames (Keys twoModels)) "github.com/x/models".toList
        = "models".toList ∧
      getStr (normalisePackageNames (Keys twoModels.reverse)) "github.com/x/models".toList
        = "models2".toList ∧
      getStr (GenerateBindings twoModels) "models".toList
        ≠ getStr (GenerateBindings twoModels.reverse) "models".toList := by
  decide

/-! ## Models that break the import statement -/

/-- C11 (the code departs from the claim): a method of the package `main` takes
a struct of `github.com/x/models`, which is not a key of the collection; the
display name looked up for it is empty and the import statement of `main`
lists no name. -/
theorem GenerateBindings_foreign_model :
    getStr (normalisePackageNames (Keys foreignModel)) "github.com/x/models".toList = [] ∧
      importNames (normalisePackageNames (Keys foreignModel))
        (allModelsOf (getList foreignModel "main".toList)) = [[]] ∧
      Contains (getStr (GenerateBindings foreignModel) "main".toList)
        "import \x7b\x7d from './models';\n".toList = true := by
  decide

/-- C12 (the code departs from the claim): the names of an import statement
can repeat.  Two models that are not keys both get the empty display name
(`import {, } from './models';`), and two target packages to which
`normalisePackageNames` gave the same display name are listed twice
(`import {models2, models2} from './models';`). -/
theorem GenerateBindings_repeated_import :
    importNames (normalisePackageNames (Keys twoForeignModels))
        (allModelsOf (getList twoForeignModels "main".toList)) = [[], []] ∧
      Contains (getStr (GenerateBindings twoForeignModels) "main".toList)
        "import \x7b, \x7d from './models';\n".toList = true ∧
      (Keys collidingModels).Nodup ∧
      importNames (normalisePackageNames (Keys collidingModels))
        (allModelsOf (getList collidingModels "main".toList))
          = ["models2".toList, "models2".toList] ∧
      Contains (getStr (GenerateBindings collidingModels) "main".toList)
        "import \x7bmodels2, models2\x7d from './models';\n".toList = true := by
  decide

/-! ## The model packages of a method -/

theorem uniqFrom_congr (l : List Str) : ∀ s1 s2 : List Str, (∀ x, x ∈ s1 ↔ x ∈ s2) →
    uniqFrom s1 l = uniqFrom s2 l := by
  induction l with
  | nil => intro s1 s2 _; rfl
  | cons y ys ih =>
    intro s1 s2 h
    unfold uniqFrom
    by_cases hy : y ∈ s1
    · rw [if_pos hy, if_pos ((h y).mp hy)]
      exact ih s1 s2 h
    · rw [if_neg hy, if_neg (fun h2 => hy ((h y).mpr h2))]
      congr 1
      apply ih
      intro x
      simp only [List.mem_cons, h x]

theorem uniqFrom_cons (seen : List Str) (x : Str) (xs : List Str) :
    uniqFrom seen (x :: xs)
      = if x ∈ seen then uniqFrom seen xs else x :: uniqFrom (x :: seen) xs := by
  rw [uniqFrom]

theorem uniqFrom_append (a b : List Str) : ∀ seen : List Str,
    uniqFrom seen (a ++ b) = uniqFrom seen a ++ uniqFrom (a ++ seen) b := by
  induction a with
  | nil => intro seen; simp [uniqFrom]
  | cons x xs ih =>
    intro seen
    rw [List.cons_append, uniqFrom_cons, uniqFrom_cons seen x xs]
    by_cases hx : x ∈ seen
    · rw [if_pos hx, if_pos hx, ih]
      congr 1
      apply uniqFrom_congr
      intro y
      simp only [List.cons_append, List.mem_cons, List.mem_append]
      constructor
      · intro h; exact Or.inr h
      · rintro (e | h)
        · subst e; exact Or.inr hx
        · exact h
    · rw [if_neg hx, if_neg hx, ih, List.cons_append]
      congr 2
      apply uniqFrom_congr
      intro y
      simp only [List.cons_append, List.mem_cons, List.mem_append]
      constructor
      · rintro (h | e | h)
        · exact Or.inr (Or.inl h)
        · exact Or.inl e
        · exact Or.inr (Or.inr h)
      · rintro (e | h | h)
        · exact Or.inr (Or.inl e)
        · exact Or.inl h
        · exact Or.inr (Or.inr h)

theorem uniqFrom_seen (l : List Str) : ∀ seen : List Str, (∀ x ∈ l, x ∈ seen) →
    uniqFrom seen l = [] := by
  induction l with
  | nil => intro seen _; rfl
  | cons y ys ih =>
    intro seen h
    unfold uniqFrom
    rw [if_pos (h y (List.mem_cons_self _ _))]
    exact ih seen (fun x hx => h x (List.mem_cons_of_mem _ hx))

theorem Uniq_twice (a b : List Str) : Uniq (a ++ a ++ b) = Uniq (a ++ b) := by
  unfold Uniq
  rw [List.append_assoc, uniqFrom_append, uniqFrom_append a b, uniqFrom_append a b,
    uniqFrom_seen a (a ++ []) (fun x hx => by simpa using hx), List.nil_append]
  congr 1
  apply uniqFrom_congr
  intro x
  simp

theorem nodup_uniqFrom (l : List Str) : ∀ seen : List Str, (uniqFrom seen l).Nodup := by
  induction l with
  | nil => intro seen; exact List.nodup_nil
  | cons y ys ih =>
    intro seen
    unfold uniqFrom
    by_cases hy : y ∈ seen
    · rw [if_pos hy]; exact ih seen
    · rw [if_neg hy, List.nodup_cons]
      refine ⟨?_, ih _⟩
      intro hm
      exact ((mem_uniqFrom y ys (y :: seen)).mp hm).2 (List.mem_cons_self _ _)

theorem structPackages_eq (ps : List Parameter) : structPackages ps = originPackages ps := by
  induction ps with
  | nil => rfl
  | cons p rest ih =>
    unfold structPackages originPackages at ih ⊢
    by_cases hs : p.Typ.IsStruct = true
    · have hne := getPackageName_ne_nil p hs
      have e : getPackageName p = originPackage p := by
        unfold getPackageName originPackage
        simp [hs]
      simp only [List.map_cons, List.filter_cons, hs, if_true]
      have hd : decide (getPackageName p ≠ []) = true := by simpa using hne
      rw [hd]
      simp only [if_true, List.map_cons]
      rw [ih, e]
    · have hs' : p.Typ.IsStruct = false := by simpa using hs
      have e : getPackageName p = [] := by
        unfold getPackageName
        simp [hs']
      simp only [List.map_cons, List.filter_cons, hs', e]
      simpa using ih

theorem originPackages_append (a b : List Parameter) :
    originPackages (a ++ b) = originPackages a ++ originPackages b := by
  simp [originPackages]

theorem originPackage_ne_nil (p : Parameter) : originPackage p ≠ [] := by
  unfold originPackage
  by_cases h : p.Typ.Package = []
  · rw [if_pos h]; decide
  · rw [if_neg h]; exact h

theorem originPackages_eq_nil (method : BoundMethod) (h : usesStruct method = false) :
    originPackages (method.Inputs ++ method.Outputs) = [] := by
  unfold usesStruct at h
  unfold originPackages
  rw [List.any_eq_false] at h
  rw [List.map_eq_nil_iff, List.filter_eq_nil_iff]
  exact h

/-- C20: for every service name and method, the list of model packages
returned by `GenerateBinding` is the list of the origin packages of the
struct-typed inputs followed by those of the struct-typed outputs (an empty
origin recorded as `main`), each kept at its first occurrence only; it has no
duplicates and does not contain the empty string; its members are exactly those
origin packages; and it is empty unless the method has a struct-typed input or
output. -/
theorem GenerateBinding_models (structName : Str) (method : BoundMethod) :
    (GenerateBinding structName method).2
        = Uniq (originPackages (method.Inputs ++ method.Outputs)) ∧
      (GenerateBinding structName method).2.Nodup ∧
      [] ∉ (GenerateBinding structName method).2 ∧
      (∀ pkg, pkg ∈ (GenerateBinding structName method).2
        ↔ pkg ∈ originPackages (method.Inputs ++ method.Outputs)) ∧
      (usesStruct method = true ∨ (GenerateBinding structName method).2 = []) := by
  have e : (GenerateBinding structName method).2
      = Uniq (originPackages (method.Inputs ++ method.Outputs)) := by
    rw [GenerateBinding_snd, Uniq_twice, structPackages_eq, structPackages_eq,
      originPackages_append]
  rw [e]
  refine ⟨rfl, nodup_uniqFrom _ _, ?_, fun pkg => mem_Uniq pkg _, ?_⟩
  · rw [mem_Uniq]
    intro h
    rcases List.mem_map.mp h with ⟨p, _, hp⟩
    exact originPackage_ne_nil p hp
  · by_cases hu : usesStruct method = true
    · exact Or.inl hu
    · right
      rw [originPackages_eq_nil method (by simpa using hu)]
      rfl

/-- The list of `move`: each origin once, in first-seen order. -/
theorem move_models :
    (GenerateBinding "App".toList move).2
      = ["github.com/x/models".toList, "models2".toList, "github.com/y/models".toList] ∧
    (GenerateBinding "App".toList greet).2 = [] ∧
    (GenerateBinding "App".toList saveMethod).2 = ["main".toList] := by
  decide

/-! ## The package name normaliser -/

theorem Split_ne_nil (sep : Char) (s : Str) : Split s sep ≠ [] := by
  cases s with
  | nil => simp [Split]
  | cons c cs =>
    unfold Split
    by_cases h : c = sep
    · simp [h]
    · simp only [h, if_false]
      split <;> simp

theorem Split_no_sep (sep : Char) (s : Str) (h : sep ∉ s) : Split s sep = [s] := by
  induction s with
  | nil => rfl
  | cons c cs ih =>
    have hc : ¬ c = sep := fun e => h (by simp [e])
    have hcs : sep ∉ cs := fun hm => h (List.mem_cons_of_mem _ hm)
    unfold Split
    simp only [hc, if_false, ih hcs]

theorem Split_sep (sep : Char) (s : Str) (h : sep ∈ s) :
    ∃ w v ws, Split s sep = w :: v :: ws := by
  induction s with
  | nil => exact absurd h (List.not_mem_nil _)
  | cons c cs ih =>
    unfold Split
    by_cases hc : c = sep
    · simp only [hc, if_true]
      rcases hs : Split cs sep with _ | ⟨v, ws⟩
      · exact absurd hs (Split_ne_nil sep cs)
      · exact ⟨[], v, ws, rfl⟩
    · have hcs : sep ∈ cs := by
        rcases List.mem_cons.mp h with e | hm
        · exact absurd e.symm hc
        · exact hm
      obtain ⟨w, v, ws, e⟩ := ih hcs
      simp only [hc, if_false, e]
      exact ⟨c :: w, v, ws, rfl⟩

theorem afterLast_no_sep (sep : Char) (s : Str) (h : sep ∉ s) : afterLast sep s = s := by
  cases s with
  | nil => rfl
  | cons c cs =>
    have hc : ¬ c = sep := fun e => h (by simp [e])
    have hcs : sep ∉ cs := fun hm => h (List.mem_cons_of_mem _ hm)
    simp [afterLast, hc, hcs]

theorem getLastD_Split (sep : Char) (s : Str) :
    (Split s sep).getLastD [] = afterLast sep s := by
  induction s with
  | nil => rfl
  | cons c cs ih =>
    by_cases hcs : sep ∈ cs
    · obtain ⟨w, v, ws, e⟩ := Split_sep sep cs hcs
      have e2 : afterLast sep (c :: cs) = afterLast sep cs := by simp [afterLast, hcs]
      rw [e2, ← ih, e]
      unfold Split
      by_cases hc : c = sep
      · simp [hc, e]
      · simp [hc, e]
    · rw [afterLast_no_sep sep cs hcs] at ih
      have e := Split_no_sep sep cs hcs
      unfold Split
      by_cases hc : c = sep
      · simp [hc, e, afterLast, hcs]
      · simp [hc, e, afterLast, hcs]

theorem Contains_slash (s : Str) : Contains s "/".toList = true ↔ '/' ∈ s := by
  rw [Contains_iff]
  show ['/'] <:+: s ↔ _
  constructor
  · rintro ⟨a, b, rfl⟩
    simp
  · intro h
    obtain ⟨a, b, rfl⟩ := List.append_of_mem h
    exact ⟨a, b, by simp⟩

theorem normaliseStep_candidate (packageName : Str) :
    (if Contains packageName "/".toList then (Split packageName '/').getLastD []
      else packageName) = candidate packageName := by
  unfold candidate
  by_cases h : '/' ∈ packageName
  · rw [if_pos ((Contains_slash _).mpr h), getLastD_Split]
  · rw [if_neg (fun hc => h ((Contains_slash _).mp hc)), afterLast_no_sep _ _ h]

theorem mem_Keys_setStr (m : GoMap Str) (k v k2 : Str) :
    k2 ∈ Keys (setStr m k v) ↔ k2 = k ∨ k2 ∈ Keys m := by
  induction m with
  | nil => simp [setStr, Keys]
  | cons e rest ih =>
    obtain ⟨k1, v1⟩ := e
    unfold setStr
    by_cases h : k1 = k
    · rw [if_pos h]
      simp only [Keys, List.map_cons, List.mem_cons, h]
      constructor
      · rintro (e | hm)
        · exact Or.inl e
        · exact Or.inr (Or.inr hm)
      · rintro (e | e | hm)
        · exact Or.inl e
        · exact Or.inl e
        · exact Or.inr hm
    · rw [if_neg h]
      simp only [Keys, List.map_cons, List.mem_cons] at ih ⊢
      rw [ih]
      constructor
      · rintro (e | e | hm)
        · exact Or.inr (Or.inl e)
        · exact Or.inl e
        · exact Or.inr (Or.inr hm)
      · rintro (e | e | hm)
        · exact Or.inr (Or.inl e)
        · exact Or.inl e
        · exact Or.inr (Or.inr hm)

theorem normaliseStep_result (st : NormState) (x : Str) :
    (normaliseStep st x).result
      = setStr st.result x
          (if candidate x ∈ st.packagesConverted then candidate x ++ Itoa (st.count + 1)
            else candidate x) := by
  unfold normaliseStep
  simp only [normaliseStep_candidate]
  by_cases h : candidate x ∈ st.packagesConverted
  · simp [h]
  · simp [h]

theorem normaliseStep_converted (st : NormState) (x : Str) :
    (normaliseStep st x).packagesConverted
      = getStr (normaliseStep st x).result x :: st.packagesConverted := by
  rw [normaliseStep_result, getStr_setStr_same]
  unfold normaliseStep
  simp only [normaliseStep_candidate]
  by_cases h : candidate x ∈ st.packagesConverted
  · simp [h]
  · simp [h]

theorem normaliseStep_count (st : NormState) (x : Str) :
    (normaliseStep st x).count
      = st.count + (if candidate x ∈ st.packagesConverted then 1 else 0) := by
  unfold normaliseStep
  simp only [normaliseStep_candidate]
  by_cases h : candidate x ∈ st.packagesConverted
  · simp [h]
  · simp [h]

theorem foldl_normaliseStep_keys (l : List Str) : ∀ (st : NormState) (k : Str),
    k ∈ Keys (l.foldl normaliseStep st).result ↔ k ∈ Keys st.result ∨ k ∈ l := by
  induction l with
  | nil => intro st k; simp
  | cons x xs ih =>
    intro st k
    rw [List.foldl_cons, ih, normaliseStep_result, mem_Keys_setStr, List.mem_cons]
    constructor
    · rintro ((e | h) | h)
      · exact Or.inr (Or.inl e)
      · exact Or.inl h
      · exact Or.inr (Or.inr h)
    · rintro (h | e | h)
      · exact Or.inl (Or.inr h)
      · exact Or.inl (Or.inl e)
      · exact Or.inr h

theorem foldl_normaliseStep_other (l : List Str) : ∀ (st : NormState) (y : Str), y ∉ l →
    getStr (l.foldl normaliseStep st).result y = getStr st.result y := by
  induction l with
  | nil => intro st y _; rfl
  | cons x xs ih =>
    intro st y hy
    have hx : y ≠ x := fun e => hy (by simp [e])
    have hxs : y ∉ xs := fun hm => hy (List.mem_cons_of_mem _ hm)
    rw [List.foldl_cons, ih _ _ hxs, normaliseStep_result, getStr_setStr_other _ _ _ _ hx]

/-- C16: for every list of package identifiers, the keys of the mapping
returned by `normalisePackageNames` are exactly the identifiers of the list. -/
theorem normalisePackageNames_keys (packageNames : List Str) (k : Str) :
    k ∈ Keys (normalisePackageNames packageNames) ↔ k ∈ packageNames := by
  unfold normalisePackageNames
  rw [foldl_normaliseStep_keys]
  simp [Keys]

theorem normState_snoc (pre : List Str) (x : Str) :
    normState (pre ++ [x]) = normaliseStep (normState pre) x := by
  unfold normState
  rw [List.foldl_append]
  rfl

theorem normalisePackageNames_eq (l : List Str) :
    normalisePackageNames l = (normState l).result := rfl

theorem displayNames_snoc (pre : List Str) (x : Str) (hx : x ∉ pre) :
    displayNames (pre ++ [x])
      = displayNames pre ++ [getStr (normalisePackageNames (pre ++ [x])) x] := by
  unfold displayNames
  rw [List.map_append, List.map_singleton]
  congr 1
  apply List.map_congr_left
  intro y hy
  have hyx : y ≠ x := fun e => hx (e ▸ hy)
  rw [normalisePackageNames_eq, normalisePackageNames_eq, normState_snoc,
    normaliseStep_result, getStr_setStr_other _ _ _ _ hyx]

theorem collisionCount_snoc (pre : List Str) (x : Str) :
    collisionCount (pre ++ [x])
      = collisionCount pre + (if isCollision pre x = true then 1 else 0) := by
  unfold collisionCount
  rw [List.length_append, List.length_singleton, List.range_succ, List.filter_append,
    List.length_append]
  congr 1
  · congr 1
    apply List.filter_congr
    intro i hi
    have hlt : i < pre.length := List.mem_range.mp hi
    rw [List.take_append_of_le_length (Nat.le_of_lt hlt)]
    congr 1
    simp [List.getD, List.getElem?_append_left hlt]
  · have e1 : (pre ++ [x]).take pre.length = pre := by simp
    have e2 : (pre ++ [x]).getD pre.length [] = x := by simp [List.getD]
    simp only [List.filter_cons, List.filter_nil, e1, e2]
    by_cases h : isCollision pre x = true
    · simp [h]
    · simp [h]

theorem normState_invariant (l : List Str) (h : l.Nodup) :
    (normState l).packagesConverted = (displayNames l).reverse ∧
      (normState l).count = collisionCount l + 1 := by
  induction l using List.reverseRecOn with
  | nil => exact ⟨rfl, rfl⟩
  | append_singleton pre x ih =>
    have hpre : pre.Nodup := (List.nodup_append.mp h).1
    have hx : x ∉ pre := by
      intro hm
      exact (List.nodup_append.mp h).2.2 hm (List.mem_singleton_self x)
    obtain ⟨ih1, ih2⟩ := ih hpre
    constructor
    · rw [displayNames_snoc pre x hx, normState_snoc, normaliseStep_converted, ih1,
        List.reverse_append, normalisePackageNames_eq, normState_snoc]
      rfl
    · rw [normState_snoc, normaliseStep_count, ih2, collisionCount_snoc, ih1]
      have e : (candidate x ∈ (displayNames pre).reverse) ↔ isCollision pre x = true := by
        simp [isCollision]
      by_cases hc : isCollision pre x = true
      · rw [if_pos hc, if_pos (e.mpr hc)]
      · rw [if_neg hc, if_neg (fun hm => hc (e.mp hm))]

theorem normalisePackageNames_at (pre : List Str) (x : Str) (post : List Str)
    (h : (pre ++ x :: post).Nodup) :
    getStr (normalisePackageNames (pre ++ x :: post)) x
      = if isCollision pre x = true then candidate x ++ Itoa (collisionCount pre + 2)
        else candidate x := by
  have hpre : pre.Nodup := (List.nodup_append.mp h).1
  have hpost : x ∉ post := (List.nodup_cons.mp (List.nodup_append.mp h).2.1).1
  obtain ⟨i1, i2⟩ := normState_invariant pre hpre
  have e : (candidate x ∈ (displayNames pre).reverse) ↔ isCollision pre x = true := by
    simp [isCollision]
  unfold normalisePackageNames
  rw [List.foldl_append, List.foldl_cons, foldl_normaliseStep_other post _ x hpost]
  show getStr (normaliseStep (normState pre) x).result x = _
  rw [normaliseStep_result, getStr_setStr_same, i1, i2]
  by_cases hc : isCollision pre x = true
  · rw [if_pos hc, if_pos (e.mpr hc)]
  · rw [if_neg hc, if_neg (fun hm => hc (e.mp hm))]

/-- C18: in a list of pairwise-distinct package identifiers, the identifier
that triggers the `k`-th collision of the run (it comes after the identifiers
`pre`, which produced `k - 1` collisions, and its candidate is a display name
already assigned) is mapped to its candidate followed by the decimal numeral of
`k + 1`. -/
theorem normalisePackageNames_collision (pre : List Str) (x : Str) (post : List Str)
    (k : Nat) (hnodup : (pre ++ x :: post).Nodup) (hcollision : isCollision pre x = true)
    (hk : k = collisionCount pre + 1) :
    getStr (normalisePackageNames (pre ++ x :: post)) x = candidate x ++ Itoa (k + 1) := by
  rw [normalisePackageNames_at pre x post hnodup, if_pos hcollision, hk]

theorem normalisePackageNames_collision_witness :
    getStr (normalisePackageNames
        (["github.com/x/models".toList, "github.com/y/models".toList, "a/util".toList]
          ++ "b/util".toList :: [])) "b/util".toList
      = candidate "b/util".toList ++ Itoa (2 + 1) :=
  normalisePackageNames_collision
    ["github.com/x/models".toList, "github.com/y/models".toList, "a/util".toList]
    "b/util".toList [] 2 (by decide) (by decide) (by decide)

/-- The second scenario of the specification: the first `models` keeps its
name, the second becomes `models2`, and the later collision on `util` gets the
suffix 3. -/
theorem fourNames_display :
    displayNames fourNames
      = ["models".toList, "models2".toList, "util".toList, "util3".toList] := by
  decide

/-- C19: in a list of pairwise-distinct package identifiers, an identifier
whose candidate has not been assigned as a display name to an identifier
earlier in the list is mapped to exactly that candidate; so it contains a `/`
or is mapped to itself. -/
theorem normalisePackageNames_fresh (pre : List Str) (x : Str) (post : List Str)
    (hnodup : (pre ++ x :: post).Nodup) (hfresh : candidate x ∉ displayNames pre) :
    getStr (normalisePackageNames (pre ++ x :: post)) x = candidate x ∧
      ('/' ∈ x ∨ getStr (normalisePackageNames (pre ++ x :: post)) x = x) := by
  have hc : ¬ isCollision pre x = true := by simpa [isCollision] using hfresh
  have e := normalisePackageNames_at pre x post hnodup
  rw [if_neg hc] at e
  refine ⟨e, ?_⟩
  by_cases hs : '/' ∈ x
  · exact Or.inl hs
  · right
    rw [e]
    exact afterLast_no_sep _ _ hs

theorem normalisePackageNames_fresh_witness :
    getStr (normalisePackageNames
        (["github.com/x/models".toList] ++ "main".toList :: ["a/util".toList]))
        "main".toList = candidate "main".toList ∧
      ('/' ∈ "main".toList ∨ getStr (normalisePackageNames
        (["github.com/x/models".toList] ++ "main".toList :: ["a/util".toList]))
        "main".toList = "main".toList) :=
  normalisePackageNames_fresh ["github.com/x/models".toList] "main".toList
    ["a/util".toList] (by decide) (by decide)

/-! ## The names in the signature and the call -/

theorem isolated_struct {name : Str} (h : placeholderFree name = true) :
    Contains name "\x7b\x7bmethodName\x7d\x7d".toList = false ∧
    Contains name "Comments".toList = false ∧
    Contains name " * @param name \x7bstring\x7d".toList = false ∧
    Contains name "\x7b\x7binputs\x7d\x7d".toList = false ∧
    Contains name "\x7b\x7bargs\x7d\x7d".toList = false ∧
    Contains name " * @returns \x7bPromise<string>\x7d".toList = false := by
  obtain ⟨h1, h3, h4, h7⟩ := (placeholderFree_iff _).mp h
  exact ⟨Contains_mono_right (by decide) h1, h3, h4,
    Contains_mono_right (by decide) h1, Contains_mono_right (by decide) h1, h7⟩

theorem signature_start (s : Str) (m : BoundMethod) (hM : nameSafe m.Name = true) :
    ∃ rest : Str,
      substituteFor s m
          "function \x7b\x7bmethodName\x7d\x7d(\x7b\x7binputs\x7d\x7d) \x7b".toList
        = ("function ".toList ++ m.Name) ++ '(' :: rest := by
  obtain ⟨f3, f4, f5, f6, f7⟩ := function_name hM
  have e12 : ReplaceAll (ReplaceAll
      "function \x7b\x7bmethodName\x7d\x7d(\x7b\x7binputs\x7d\x7d) \x7b".toList
      "\x7b\x7bstructName\x7d\x7d".toList s) "\x7b\x7bmethodName\x7d\x7d".toList m.Name
      = ("function ".toList ++ m.Name) ++ '(' :: "\x7b\x7binputs\x7d\x7d) \x7b".toList := rfl
  unfold substituteFor substituteAll
  simp only []
  rw [e12]
  simp (disch := first | decide | assumption) only
    [ReplaceAll_sep, ReplaceAll_of_not_contains]
  exact ⟨_, rfl⟩

theorem call_start (s : Str) (m : BoundMethod) (hS : placeholderFree s = true)
    (hM : nameSafe m.Name = true) :
    ∃ rest : Str,
      substituteFor s m
          "    return wails.Call(\x7b\x7bstructName\x7d\x7d(\"\x7b\x7bmethodName\x7d\x7d\"\x7b\x7bargs\x7d\x7d));".toList
        = "    return wails.Call".toList ++ '(' :: (s ++ '(' :: ('"' :: (m.Name ++ '"' :: rest)))
      := by
  obtain ⟨s2, s3, s4, s5, s6, s7⟩ := isolated_struct hS
  obtain ⟨_, m3, m4, m5, m6, m7⟩ := isolated_name hM
  have e1 : ReplaceAll
      "    return wails.Call(\x7b\x7bstructName\x7d\x7d(\"\x7b\x7bmethodName\x7d\x7d\"\x7b\x7bargs\x7d\x7d));".toList
      "\x7b\x7bstructName\x7d\x7d".toList s
      = "    return wails.Call".toList ++ '(' :: (s ++ '(' ::
          ([] ++ '"' :: "\x7b\x7bmethodName\x7d\x7d\"\x7b\x7bargs\x7d\x7d));".toList)) := rfl
  have e2 : ReplaceAll "\x7b\x7bmethodName\x7d\x7d\"\x7b\x7bargs\x7d\x7d));".toList
      "\x7b\x7bmethodName\x7d\x7d".toList m.Name
      = m.Name ++ '"' :: "\x7b\x7bargs\x7d\x7d));".toList := rfl
  unfold substituteFor substituteAll
  simp only []
  rw [e1]
  simp (disch := first | decide | assumption) only
    [ReplaceAll_sep, ReplaceAll_of_not_contains, e2]
  exact ⟨_, rfl⟩

/-- When the service name contains none of the placeholder texts and the
method name contains none of the texts that are replaced after it is in place,
the stub contains a line beginning `function M(` and a line beginning
`    return wails.Call(S("M"`. -/
theorem names_intact_of_nameSafe (structName : Str) (method : BoundMethod)
    (hstruct : placeholderFree structName = true) (hmethod : nameSafe method.Name = true) :
    Contains (GenerateBinding structName method).1
        ("\nfunction ".toList ++ method.Name ++ "(".toList) = true ∧
      Contains (GenerateBinding structName method).1
        ("\n    return wails.Call(".toList ++ structName ++ "(\"".toList ++ method.Name
          ++ "\"".toList) = true := by
  obtain ⟨r7, e7⟩ := signature_start structName method hmethod
  obtain ⟨r8, e8⟩ := call_start structName method hstruct hmethod
  rw [stub_lines, e7, e8, Contains_iff, Contains_iff]
  constructor
  · refine ⟨'\n' :: ("/**".toList ++ '\n' ::
        (substituteFor structName method
          " * \x7b\x7bstructName\x7d\x7d.\x7b\x7bmethodName\x7d\x7d".toList ++ '\n' ::
        (substituteFor structName method " * Comments".toList ++ '\n' ::
        (substituteFor structName method " * @param name \x7bstring\x7d".toList ++ '\n' ::
        (substituteFor structName method " * @returns \x7bPromise<string>\x7d".toList ++ '\n' ::
        " **/".toList))))),
      r7 ++ '\n' :: ("    return wails.Call".toList ++ '(' :: (structName ++ '(' ::
        ('"' :: (method.Name ++ '"' :: r8))) ++ '\n' :: ("\x7d".toList ++ '\n' :: [])), ?_⟩
    simp only [List.append_assoc, List.cons_append, List.nil_append, List.singleton_append]
    rfl
  · refine ⟨'\n' :: ("/**".toList ++ '\n' ::
        (substituteFor structName method
          " * \x7b\x7bstructName\x7d\x7d.\x7b\x7bmethodName\x7d\x7d".toList ++ '\n' ::
        (substituteFor structName method " * Comments".toList ++ '\n' ::
        (substituteFor structName method " * @param name \x7bstring\x7d".toList ++ '\n' ::
        (substituteFor structName method " * @returns \x7bPromise<string>\x7d".toList ++ '\n' ::
        (" **/".toList ++ '\n' :: (("function ".toList ++ method.Name) ++ '(' :: r7))))))),
      r8 ++ '\n' :: ("\x7d".toList ++ '\n' :: []), ?_⟩
    simp only [List.append_assoc, List.cons_append, List.nil_append, List.singleton_append]
    rfl

/-- C17 (the code departs from the claim): for the service `BlogService` and
the method `GetComments(postID string) string` without a doc comment, neither
name containing `{{`, the stub has neither the signature
`function GetComments(` nor the call `return wails.Call(BlogService("GetComments"`.
The method name is inserted for `{{methodName}}` first; the bare word
`Comments`, the placeholder of the doc text, is replaced afterwards in the
whole text, also inside the name just inserted.  The stub declares
`function Get(postID)` and dispatches to the method `"Get"`. -/
theorem GenerateBinding_comments_name :
    Contains "BlogService".toList "\x7b\x7b".toList = false ∧
      Contains getComments.Name "\x7b\x7b".toList = false ∧
      Contains (GenerateBinding "BlogService".toList getComments).1
        "function GetComments(".toList = false ∧
      Contains (GenerateBinding "BlogService".toList getComments).1
        "return wails.Call(BlogService(\"GetComments\"".toList = false ∧
      Contains (GenerateBinding "BlogService".toList getComments).1
        "\nfunction Get(postID) \x7b\n".toList = true ∧
      Contains (GenerateBinding "BlogService".toList getComments).1
        "\n    return wails.Call(BlogService(\"Get\", postID));\n".toList = true := by
  decide

/-! ## The order of strings and the sorts -/

theorem toNat_eq {a b : Char} (h : a.toNat = b.toNat) : a = b := by
  have := congrArg Char.ofNat h
  simpa using this

theorem strLe_total : ∀ a b : Str, strLe a b = true ∨ strLe b a = true := by
  intro a
  induction a with
  | nil => intro b; exact Or.inl (by simp [strLe])
  | cons x xs ih =>
    intro b
    cases b with
    | nil => exact Or.inr (by simp [strLe])
    | cons y ys =>
      unfold strLe
      by_cases h1 : x.toNat < y.toNat
      · simp [h1]
      · by_cases h2 : y.toNat < x.toNat
        · simp [h2]
        · simp only [h1, h2, if_false]
          exact ih ys

theorem strLe_trans : ∀ a b c : Str, strLe a b = true → strLe b c = true →
    strLe a c = true := by
  intro a
  induction a with
  | nil => intro b c _ _; simp [strLe]
  | cons x xs ih =>
    intro b c hab hbc
    cases b with
    | nil => simp [strLe] at hab
    | cons y ys =>
      cases c with
      | nil => simp [strLe] at hbc
      | cons z zs =>
        unfold strLe at hab hbc ⊢
        by_cases h1 : x.toNat < y.toNat
        · by_cases h2 : y.toNat < z.toNat
          · have : x.toNat < z.toNat := by omega
            simp [this]
          · by_cases h3 : z.toNat < y.toNat
            · simp [h2, h3] at hbc
            · have : x.toNat < z.toNat := by omega
              simp [this]
        · by_cases h1' : y.toNat < x.toNat
          · simp [h1, h1'] at hab
          · simp only [h1, h1', if_false] at hab
            by_cases h2 : y.toNat < z.toNat
            · have : x.toNat < z.toNat := by omega
              simp [this]
            · by_cases h3 : z.toNat < y.toNat
              · simp [h2, h3] at hbc
              · simp only [h2, h3, if_false] at hbc
                have e1 : ¬ x.toNat < z.toNat := by omega
                have e2 : ¬ z.toNat < x.toNat := by omega
                simp only [e1, e2, if_false]
                exact ih ys zs hab hbc

theorem strLe_antisymm : ∀ a b : Str, strLe a b = true → strLe b a = true → a = b := by
  intro a
  induction a with
  | nil =>
    intro b _ hba
    cases b with
    | nil => rfl
    | cons y ys => simp [strLe] at hba
  | cons x xs ih =>
    intro b hab hba
    cases b with
    | nil => simp [strLe] at hab
    | cons y ys =>
      unfold strLe at hab hba
      by_cases h1 : x.toNat < y.toNat
      · have h2 : ¬ y.toNat < x.toNat := by omega
        simp [h1, h2] at hba
      · by_cases h2 : y.toNat < x.toNat
        · simp [h1, h2] at hab
        · simp only [h1, h2, if_false] at hab hba
          have e : x = y := toNat_eq (by omega)
          rw [e, ih ys hab hba]

instance strLe_isTotal : IsTotal Str (fun a b => strLe a b = true) := ⟨strLe_total⟩

instance strLe_isTrans : IsTrans Str (fun a b => strLe a b = true) := ⟨strLe_trans⟩

instance strLe_isAntisymm : IsAntisymm Str (fun a b => strLe a b = true) :=
  ⟨strLe_antisymm⟩

instance nameLe_isTotal : IsTotal BoundMethod (fun a b => strLe a.Name b.Name = true) :=
  ⟨fun a b => strLe_total a.Name b.Name⟩

instance nameLe_isTrans : IsTrans BoundMethod (fun a b => strLe a.Name b.Name = true) :=
  ⟨fun a b c => strLe_trans a.Name b.Name c.Name⟩

theorem sorted_sortStrings (l : List Str) :
    (sortStrings l).Sorted (fun a b => strLe a b = true) :=
  List.sorted_insertionSort _ l

theorem sorted_sortMethods (l : List BoundMethod) :
    (sortMethods l).Sorted (fun a b => strLe a.Name b.Name = true) :=
  List.sorted_insertionSort _ l

theorem sortStrings_eq (l sorted : List Str) (hp : sorted.Perm l)
    (hs : sorted.Sorted (fun a b => strLe a b = true)) : sortStrings l = sorted :=
  List.eq_of_perm_of_sorted ((List.perm_insertionSort _ l).trans hp.symm)
    (sorted_sortStrings l) hs

/-! ## The text of one module -/

theorem Appended_refl (key : Str) (r : GoMap Str) : Appended key [] r r :=
  ⟨(List.append_nil _).symm, fun _ _ => rfl⟩

theorem Appended_trans {key t1 t2 : Str} {r r1 r2 : GoMap Str}
    (h1 : Appended key t1 r r1) (h2 : Appended key t2 r1 r2) :
    Appended key (t1 ++ t2) r r2 :=
  ⟨by rw [h2.1, h1.1, List.append_assoc], fun k hk => (h2.2 k hk).trans (h1.2 k hk)⟩

theorem Appended_appendAt (key text : Str) (r : GoMap Str) :
    Appended key text r (appendAt r key text) :=
  ⟨getStr_setStr_same _ _ _, fun _ hk => getStr_setStr_other _ _ _ _ hk⟩

theorem foldl_Appended {α : Type} (key : Str) (f : α → Str)
    (step : GoMap Str → α → GoMap Str)
    (hstep : ∀ r x, Appended key (f x) r (step r x)) (l : List α) :
    ∀ r, Appended key (l.flatMap f) r (l.foldl step r) := by
  induction l with
  | nil => intro r; exact Appended_refl key r
  | cons x xs ih =>
    intro r
    rw [List.foldl_cons, List.flatMap_cons]
    exact Appended_trans (hstep r x) (ih (step r x))

theorem foldl_pair_Appended {α β : Type} (key : Str) (f : α → Str)
    (step : GoMap Str × β → α → GoMap Str × β)
    (hstep : ∀ st x, Appended key (f x) st.1 (step st x).1) (l : List α) :
    ∀ st, Appended key (l.flatMap f) st.1 (l.foldl step st).1 := by
  induction l with
  | nil => intro st; exact Appended_refl key st.1
  | cons x xs ih =>
    intro st
    rw [List.foldl_cons, List.flatMap_cons]
    exact Appended_trans (hstep st x) (ih (step st x))

theorem stubsLoop_Appended (key : Str) (pb : GoMap (List BoundMethod)) (names : List Str)
    (r : GoMap Str) :
    Appended key
      (stubsText key (names.map (fun s => (s, sortMethods (getList pb s)))))
      r (stubsLoop key pb names r).1 := by
  unfold stubsLoop stubsText
  rw [List.flatMap_map]
  refine foldl_pair_Appended key _ _ ?_ names (r, [])
  intro st structName
  refine Appended_trans (Appended_appendAt key (GenerateHelper key structName) st.1) ?_
  exact foldl_pair_Appended key (fun method => (GenerateBinding structName method).1) _
    (fun st2 method => Appended_appendAt key _ st2.1) _
    (appendAt st.1 key (GenerateHelper key structName), st.2)

theorem namespaceLoop_Appended (key : Str) (pb : GoMap (List BoundMethod))
    (names : List Str) (r : GoMap Str) :
    Appended key
      (namespaceText (names.map (fun s => (s, sortMethods (getList pb s)))))
      r (namespaceLoop key pb names r) := by
  unfold namespaceLoop namespaceText
  rw [List.flatMap_map]
  refine foldl_Appended key _ _ ?_ names r
  intro r1 structName
  simp only []
  refine Appended_trans (Appended_trans (Appended_appendAt key _ r1) ?_)
    (Appended_appendAt key _ _)
  exact foldl_Appended key (fun (method : BoundMethod) =>
    "        ".toList ++ method.Name ++ ",\n".toList) _
    (fun r2 method => Appended_appendAt key _ r2) _ _

theorem generatePackage_body (norm : GoMap Str) (b : BindingsMap) (r : GoMap Str)
    (packageName : Str) :
    Appended (getStr norm packageName)
      (moduleBody (getStr norm packageName) (visitedServices (getList b packageName))) r
      (appendAt (namespaceLoop (getStr norm packageName)
        (getList b packageName) (sortStrings (Keys (getList b packageName)))
        (appendAt (appendAt (stubsLoop (getStr norm packageName) (getList b packageName)
          (sortStrings (Keys (getList b packageName))) r).1 (getStr norm packageName)
          "\nwindow.go = window.go || \x7b\x7d;\n".toList) (getStr norm packageName)
          ("window.go.".toList ++ getStr norm packageName ++ " = \x7b\n".toList)))
        (getStr norm packageName) "\x7d;\n".toList) := by
  unfold moduleBody visitedServices
  exact Appended_trans (Appended_trans (Appended_trans (Appended_trans
    (stubsLoop_Appended _ _ _ r) (Appended_appendAt _ _ _)) (Appended_appendAt _ _ _))
    (namespaceLoop_Appended _ _ _ _)) (Appended_appendAt _ _ _)

theorem generatePackage_key (norm : GoMap Str) (b : BindingsMap) (r : GoMap Str)
    (packageName : Str) :
    getStr (generatePackage norm b r packageName) (getStr norm packageName)
      = moduleText norm b packageName (getStr r (getStr norm packageName)) := by
  have h5 := generatePackage_body norm b r packageName
  unfold generatePackage moduleText
  simp only []
  rw [getStr_setStr_same, stubsLoop_snd]
  rw [show (sortStrings (Keys (getList b packageName))).flatMap (fun structName =>
      (sortMethods (getList (getList b packageName) structName)).flatMap (fun method =>
        (GenerateBinding structName method).2)) = allModelsOf (getList b packageName) from rfl]
  by_cases hm : allModelsOf (getList b packageName) = []
  · have hl : ¬ (allModelsOf (getList b packageName)).length > 0 := by simp [hm]
    rw [if_neg hl, if_pos hm, h5.1]
  · have hl : (allModelsOf (getList b packageName)).length > 0 := List.length_pos.mpr hm
    rw [if_pos hl, if_neg hm, getStr_setStr_same, (Appended_appendAt _ _ _).1, h5.1]
    rfl

theorem generatePackage_other (norm : GoMap Str) (b : BindingsMap) (r : GoMap Str)
    (packageName k : Str) (hk : k ≠ getStr norm packageName) :
    getStr (generatePackage norm b r packageName) k = getStr r k := by
  have h5 := generatePackage_body norm b r packageName
  unfold generatePackage
  simp only []
  rw [getStr_setStr_other _ _ _ _ hk]
  split
  · rw [getStr_setStr_other _ _ _ _ hk, (Appended_appendAt _ _ _).2 k hk, h5.2 k hk]
  · rw [h5.2 k hk]

theorem getStr_nil (k : Str) : getStr [] k = [] := rfl

theorem foldl_generatePackage (norm : GoMap Str) (b : BindingsMap) (packageName : Str)
    (l : List Str) (hl : l.Nodup) (hmem : packageName ∈ l)
    (hkey : ∀ q ∈ l, q ≠ packageName → getStr norm q ≠ getStr norm packageName) :
    ∀ r, getStr (l.foldl (generatePackage norm b) r) (getStr norm packageName)
      = moduleText norm b packageName (getStr r (getStr norm packageName)) := by
  induction l with
  | nil => exact absurd hmem (List.not_mem_nil _)
  | cons q qs ih =>
    intro r
    rw [List.foldl_cons]
    have hq : q ∉ qs := (List.nodup_cons.mp hl).1
    have hqs : qs.Nodup := (List.nodup_cons.mp hl).2
    by_cases e : q = packageName
    · subst e
      have hrest : ∀ (l2 : List Str), (∀ x ∈ l2, x ∈ qs) → ∀ r2,
          getStr (l2.foldl (generatePackage norm b) r2) (getStr norm q)
            = getStr r2 (getStr norm q) := by
        intro l2
        induction l2 with
        | nil => intro _ r2; rfl
        | cons x xs ih2 =>
          intro hsub r2
          have hx : x ∈ qs := hsub x (List.mem_cons_self _ _)
          have hxq : x ≠ q := fun e => hq (e ▸ hx)
          rw [List.foldl_cons, ih2 (fun y hy => hsub y (List.mem_cons_of_mem _ hy)),
            generatePackage_other _ _ _ _ _
              (Ne.symm (hkey x (List.mem_cons_of_mem _ hx) hxq))]
      rw [hrest qs (fun x hx => hx), generatePackage_key]
    · have hm2 : packageName ∈ qs := by
        rcases List.mem_cons.mp hmem with e2 | h
        · exact absurd e2.symm e
        · exact h
      rw [ih hqs hm2 (fun x hx => hkey x (List.mem_cons_of_mem _ hx)),
        generatePackage_other _ _ _ _ _ (Ne.symm (hkey q (List.mem_cons_self _ _) e))]

theorem nodup_sortStrings (l : List Str) (h : l.Nodup) : (sortStrings l).Nodup :=
  (List.perm_insertionSort _ l).nodup_iff.mpr h

theorem GenerateBindings_moduleText (b : BindingsMap) (packageName : Str)
    (hnodup : (Keys b).Nodup) (hmem : packageName ∈ Keys b)
    (hkey : ∀ q ∈ Keys b, q ≠ packageName →
      getStr (normalisePackageNames (Keys b)) q
        ≠ getStr (normalisePackageNames (Keys b)) packageName) :
    getStr (GenerateBindings b) (getStr (normalisePackageNames (Keys b)) packageName)
      = moduleText (normalisePackageNames (Keys b)) b packageName [] := by
  unfold GenerateBindings
  simp only []
  rw [foldl_generatePackage _ b packageName _ (nodup_sortStrings _ hnodup)
    ((mem_sortStrings _ _).mpr hmem)
    (fun q hq => hkey q ((mem_sortStrings _ _).mp hq))]
  rfl

theorem displayNames_no_slash (l : List Str) (hnodup : l.Nodup)
    (hslash : ∀ x ∈ l, Contains x "/".toList = false) : displayNames l = l := by
  induction l using List.reverseRecOn with
  | nil => rfl
  | append_singleton pre x ih =>
    have hpre : pre.Nodup := (List.nodup_append.mp hnodup).1
    have hx : x ∉ pre := by
      intro hm
      exact (List.nodup_append.mp hnodup).2.2 hm (List.mem_singleton_self x)
    have ih' := ih hpre (fun y hy => hslash y (List.mem_append_left _ hy))
    have hs : '/' ∉ x := by
      intro hm
      have := hslash x (by simp)
      rw [(Contains_slash x).mpr hm] at this
      exact Bool.noConfusion this
    have hc : candidate x = x := afterLast_no_sep _ _ hs
    have hcol : ¬ isCollision pre x = true := by
      simp only [isCollision, ih', hc, decide_eq_true_eq]
      exact hx
    have e := normalisePackageNames_at pre x [] hnodup
    rw [if_neg hcol, hc] at e
    rw [displayNames_snoc pre x hx, ih', e]

theorem normalisePackageNames_no_slash (l : List Str) (hnodup : l.Nodup)
    (hslash : ∀ x ∈ l, Contains x "/".toList = false) (x : Str) (hx : x ∈ l) :
    getStr (normalisePackageNames l) x = x := by
  have h := displayNames_no_slash l hnodup hslash
  unfold displayNames at h
  have h2 : l.map (getStr (normalisePackageNames l)) = l.map id := by simpa using h
  exact List.map_inj_left.mp h2 x hx

theorem GenerateBindings_no_slash (b : BindingsMap) (packageName : Str)
    (hnodup : (Keys b).Nodup) (hslash : ∀ x ∈ Keys b, Contains x "/".toList = false)
    (hmem : packageName ∈ Keys b) :
    getStr (normalisePackageNames (Keys b)) packageName = packageName ∧
      getStr (GenerateBindings b) packageName
        = moduleText (normalisePackageNames (Keys b)) b packageName [] := by
  have hid := normalisePackageNames_no_slash (Keys b) hnodup hslash
  have h := GenerateBindings_moduleText b packageName hnodup hmem
    (fun q hq hne => by rw [hid q hq, hid packageName hmem]; exact hne)
  rw [hid packageName hmem] at h
  exact ⟨hid packageName hmem, h⟩

theorem GenerateBinding_snd_origin (structName : Str) (method : BoundMethod) :
    (GenerateBinding structName method).2
      = Uniq (originPackages (method.Inputs ++ method.Outputs)) := by
  rw [GenerateBinding_snd, Uniq_twice, structPackages_eq, structPackages_eq,
    originPackages_append]

theorem allModelsOf_eq_nil (pb : GoMap (List BoundMethod)) :
    allModelsOf pb = [] ↔ packageUsesStruct pb = false := by
  constructor
  · intro h
    by_contra hc
    have hc' : packageUsesStruct pb = true := by simpa using hc
    unfold packageUsesStruct usesStruct at hc'
    rw [List.any_eq_true] at hc'
    obtain ⟨s, hs, hm⟩ := hc'
    rw [List.any_eq_true] at hm
    obtain ⟨m, hm1, hp⟩ := hm
    rw [List.any_eq_true] at hp
    obtain ⟨p, hp1, hp2⟩ := hp
    have := mem_allModelsOf pb s hs m hm1 p hp1 hp2
    rw [h] at this
    exact List.not_mem_nil _ this
  · intro h
    by_contra hc
    obtain ⟨x, hx⟩ := List.exists_mem_of_ne_nil _ hc
    unfold allModelsOf at hx
    rw [List.mem_flatMap] at hx
    obtain ⟨s, hs, hx⟩ := hx
    rw [List.mem_flatMap] at hx
    obtain ⟨m, hm, hx⟩ := hx
    rw [GenerateBinding_snd_origin, mem_Uniq] at hx
    unfold originPackages at hx
    obtain ⟨p, hp, _⟩ := List.mem_map.mp hx
    obtain ⟨hp1, hp2⟩ := List.mem_filter.mp hp
    have : packageUsesStruct pb = true := by
      unfold packageUsesStruct usesStruct
      rw [List.any_eq_true]
      refine ⟨s, (mem_sortStrings _ _).mp hs, ?_⟩
      rw [List.any_eq_true]
      refine ⟨m, (mem_sortMethods _ _).mp hm, ?_⟩
      rw [List.any_eq_true]
      exact ⟨p, hp1, hp2⟩
    rw [h] at this
    exact Bool.noConfusion this

theorem GenerateHelper_start (packageName structName : Str) :
    ∃ rest : Str, GenerateHelper packageName structName = "function ".toList ++ rest := by
  have ht : helperTemplate
      = "function \x7b\x7bstructName\x7d\x7d(method) \x7b".toList ++ '\n' ::
        "    return \x7b\n        packageName: \"\x7b\x7bpackageName\x7d\x7d\",\n        serviceName: \"\x7b\x7bstructName\x7d\x7d\",\n        methodName: method,\n        args: Array.prototype.slice.call(arguments, 1),\n    \x7d;\n\x7d\n".toList := by
    decide
  have e : ReplaceAll (ReplaceAll "function \x7b\x7bstructName\x7d\x7d(method) \x7b".toList
      "\x7b\x7bpackageName\x7d\x7d".toList packageName) "\x7b\x7bstructName\x7d\x7d".toList
      structName = "function ".toList ++ (structName ++ "(method) \x7b".toList) := rfl
  unfold GenerateHelper
  simp only []
  rw [ht, ReplaceAll_sep _ (by decide) (by decide), ReplaceAll_sep _ (by decide) (by decide), e]
  exact ⟨_, by rw [List.append_assoc]⟩

theorem map_eq_of_injOn {α β : Type} (f : α → β) (l : List α)
    (hinj : ∀ x ∈ l, ∀ y ∈ l, f x = f y → x = y) :
    ∀ l1 l2 : List α, (∀ x ∈ l1, x ∈ l) → (∀ x ∈ l2, x ∈ l) → l1.map f = l2.map f →
      l1 = l2 := by
  intro l1
  induction l1 with
  | nil =>
    intro l2 _ _ h
    cases l2 with
    | nil => rfl
    | cons y ys => simp at h
  | cons x xs ih =>
    intro l2 h1 h2 h
    cases l2 with
    | nil => simp at h
    | cons y ys =>
      simp only [List.map_cons, List.cons.injEq] at h
      have exy : x = y := hinj x (h1 x (List.mem_cons_self _ _)) y
        (h2 y (List.mem_cons_self _ _)) h.1
      rw [exy, ih ys (fun z hz => h1 z (List.mem_cons_of_mem _ hz))
        (fun z hz => h2 z (List.mem_cons_of_mem _ hz)) h.2]

theorem sortMethods_eq (l sorted : List BoundMethod) (hp : sorted.Perm l)
    (hs : sorted.Sorted (fun a b => strLe a.Name b.Name = true))
    (hn : (l.map (fun m => m.Name)).Nodup) : sortMethods l = sorted := by
  have hperm : (sortMethods l).Perm sorted := (List.perm_insertionSort _ l).trans hp.symm
  have hnames : (sortMethods l).map (fun m => m.Name) = sorted.map (fun m => m.Name) := by
    apply List.eq_of_perm_of_sorted (r := fun a b => strLe a b = true) (hperm.map _)
    · exact (List.pairwise_map).mpr (sorted_sortMethods l)
    · exact (List.pairwise_map).mpr hs
  exact map_eq_of_injOn (fun m => m.Name) l (List.inj_on_of_nodup_map hn) _ _
    (fun x hx => (mem_sortMethods _ _).mp hx) (fun x hx => hp.subset hx) hnames

theorem visitedServices_eq (pb : GoMap (List BoundMethod))
    (services : List (Str × List BoundMethod))
    (hperm : (services.map Prod.fst).Perm (Keys pb))
    (hsorted : (services.map Prod.fst).Sorted (fun a b => strLe a b = true))
    (hmethods : ∀ e ∈ services, e.2.Perm (getList pb e.1) ∧
      e.2.Sorted (fun m n => strLe m.Name n.Name = true))
    (hnames : ∀ s ∈ Keys pb, ((getList pb s).map (fun m => m.Name)).Nodup) :
    visitedServices pb = services := by
  unfold visitedServices
  rw [sortStrings_eq _ _ hperm hsorted, List.map_map]
  conv_rhs => rw [← List.map_id services]
  apply List.map_congr_left
  intro e he
  have hk : e.1 ∈ Keys pb := hperm.subset (List.mem_map.mpr ⟨e, he, rfl⟩)
  obtain ⟨h1, h2⟩ := hmethods e he
  simp only [Function.comp, id]
  rw [sortMethods_eq _ _ h1 h2 (hnames e.1 hk)]

/-! ## The assembled module -/

/-- C13: for every bindings collection and every target package whose module
gets an import statement, the module text contains the statement `import {`
names joined with `, ` `} from './models';` whose names, the translated
display names, are in ascending order. -/
theorem GenerateBindings_imports_sorted (bindings : BindingsMap) (packageName : Str)
    (hpackage : packageName ∈ Keys bindings)
    (hmodels : allModelsOf (getList bindings packageName) ≠ []) :
    (importNames (normalisePackageNames (Keys bindings))
        (allModelsOf (getList bindings packageName))).Sorted
          (fun a b => strLe a b = true) ∧
      Contains
        (getStr (GenerateBindings bindings)
          (getStr (normalisePackageNames (Keys bindings)) packageName))
        ("import \x7b".toList
          ++ Join (importNames (normalisePackageNames (Keys bindings))
              (allModelsOf (getList bindings packageName))) ", ".toList
          ++ "\x7d from './models';\n".toList) = true := by
  constructor
  · rw [importNames_eq]
    exact sorted_sortStrings _
  · rw [Contains_iff]
    unfold GenerateBindings
    simp only []
    exact foldl_keeps _ (generatePackage_MapLe _ bindings) _ packageName
      ((mem_sortStrings _ _).mpr hpackage) _ _
      (fun r => generatePackage_import _ bindings r packageName hmodels) []

theorem GenerateBindings_imports_sorted_witness :
    (importNames (normalisePackageNames (Keys collidingModels))
        (allModelsOf (getList collidingModels "main".toList))).Sorted
          (fun a b => strLe a b = true) ∧
      Contains
        (getStr (GenerateBindings collidingModels)
          (getStr (normalisePackageNames (Keys collidingModels)) "main".toList))
        ("import \x7b".toList
          ++ Join (importNames (normalisePackageNames (Keys collidingModels))
              (allModelsOf (getList collidingModels "main".toList))) ", ".toList
          ++ "\x7d from './models';\n".toList) = true :=
  GenerateBindings_imports_sorted collidingModels "main".toList (by decide) (by decide)

/-- C14: in a bindings collection whose pairwise-distinct package identifiers
contain no `/`, the module text of a package `P` begins with the header.  When
a method of `P` has a struct-typed input or output, the header is followed by
the import statement and a blank line.  Otherwise the header is not followed by
an import statement but by the whole namespace block when `P` has no services,
and by the helper of the first service, in ascending order of name, when it
has. -/
theorem GenerateBindings_module_start (bindings : BindingsMap) (packageName : Str)
    (hnodup : (Keys bindings).Nodup)
    (hslash : ∀ x ∈ Keys bindings, Contains x "/".toList = false)
    (hpackage : packageName ∈ Keys bindings) :
    (packageUsesStruct (getList bindings packageName) = true ∧
      ∃ rest : Str, getStr (GenerateBindings bindings) packageName
        = header ++ importStatement (importNames (normalisePackageNames (Keys bindings))
            (allModelsOf (getList bindings packageName))) ++ "\n".toList ++ rest) ∨
    (packageUsesStruct (getList bindings packageName) = false ∧
      (∀ rest : Str, getStr (GenerateBindings bindings) packageName
        ≠ header ++ "import ".toList ++ rest) ∧
      ((Keys (getList bindings packageName) = [] ∧
        getStr (GenerateBindings bindings) packageName
          = header ++ "\nwindow.go = window.go || \x7b\x7d;\n".toList
            ++ ("window.go.".toList ++ packageName ++ " = \x7b\n".toList)
            ++ "\x7d;\n".toList) ∨
       (∃ (first : Str) (others : List Str) (rest : Str),
        sortStrings (Keys (getList bindings packageName)) = first :: others ∧
        getStr (GenerateBindings bindings) packageName
          = header ++ GenerateHelper packageName first ++ rest))) := by
  obtain ⟨hid, htext⟩ := GenerateBindings_no_slash bindings packageName hnodup hslash hpackage
  rw [htext]
  unfold moduleText
  rw [hid]
  by_cases hu : packageUsesStruct (getList bindings packageName) = true
  · left
    have hm : ¬ allModelsOf (getList bindings packageName) = [] := by
      rw [allModelsOf_eq_nil, hu]; exact Bool.noConfusion
    rw [if_neg hm]
    exact ⟨hu, moduleBody packageName (visitedServices (getList bindings packageName))
      ++ "\n".toList, by simp only [List.append_assoc, List.nil_append]⟩
  · right
    have hu' : packageUsesStruct (getList bindings packageName) = false := by simpa using hu
    have hm : allModelsOf (getList bindings packageName) = [] :=
      (allModelsOf_eq_nil _).mpr hu'
    rw [if_pos hm, List.nil_append]
    have hcases : (Keys (getList bindings packageName) = [] ∧
        moduleBody packageName (visitedServices (getList bindings packageName))
          = "\nwindow.go = window.go || \x7b\x7d;\n".toList
            ++ ("window.go.".toList ++ packageName ++ " = \x7b\n".toList)
            ++ "\x7d;\n".toList) ∨
       (∃ (first : Str) (others : List Str) (rest : Str),
        sortStrings (Keys (getList bindings packageName)) = first :: others ∧
        moduleBody packageName (visitedServices (getList bindings packageName))
          = GenerateHelper packageName first ++ rest) := by
      cases hsrt : sortStrings (Keys (getList bindings packageName)) with
      | nil =>
        left
        have hp := List.perm_insertionSort (fun a b => strLe a b = true)
          (Keys (getList bindings packageName))
        unfold sortStrings at hsrt
        rw [hsrt] at hp
        refine ⟨(List.Perm.nil_eq hp).symm, ?_⟩
        unfold moduleBody visitedServices sortStrings
        rw [hsrt]
        simp only [List.map_nil, stubsText, namespaceText,
          List.flatMap_nil, List.nil_append, List.append_nil]
      | cons first others =>
        right
        have hex : ∃ rest : Str,
            moduleBody packageName (visitedServices (getList bindings packageName))
              = GenerateHelper packageName first ++ rest := by
          unfold moduleBody visitedServices stubsText
          rw [hsrt]
          simp only [List.map_cons, List.flatMap_cons, List.append_assoc]
          exact ⟨_, rfl⟩
        obtain ⟨rest, hr⟩ := hex
        exact ⟨first, others, rest, rfl, hr⟩
    refine ⟨hu', ?_, ?_⟩
    · intro rest h
      rw [List.append_assoc] at h
      have h2 := List.append_cancel_left h
      rcases hcases with ⟨_, hb⟩ | ⟨first, others, r, _, hb⟩
      · rw [hb] at h2
        have h3 := congrArg List.head? h2
        change some '\n' = some 'i' at h3
        exact absurd h3 (by decide)
      · obtain ⟨r2, hg⟩ := GenerateHelper_start packageName first
        rw [hb, hg] at h2
        have h3 := congrArg List.head? h2
        change some 'f' = some 'i' at h3
        exact absurd h3 (by decide)
    · rcases hcases with ⟨hk, hb⟩ | ⟨first, others, r, hs, hb⟩
      · left
        refine ⟨hk, ?_⟩
        rw [hb]
        simp only [List.append_assoc]
      · right
        refine ⟨first, others, r, hs, ?_⟩
        rw [hb, List.append_assoc]

theorem GenerateBindings_module_start_witness :
    (packageUsesStruct (getList selfModel "main".toList) = true ∧
      ∃ rest : Str, getStr (GenerateBindings selfModel) "main".toList
        = header ++ importStatement (importNames (normalisePackageNames (Keys selfModel))
            (allModelsOf (getList selfModel "main".toList))) ++ "\n".toList ++ rest) ∨
    (packageUsesStruct (getList selfModel "main".toList) = false ∧
      (∀ rest : Str, getStr (GenerateBindings selfModel) "main".toList
        ≠ header ++ "import ".toList ++ rest) ∧
      ((Keys (getList selfModel "main".toList) = [] ∧
        getStr (GenerateBindings selfModel) "main".toList
          = header ++ "\nwindow.go = window.go || \x7b\x7d;\n".toList
            ++ ("window.go.".toList ++ "main".toList ++ " = \x7b\n".toList)
            ++ "\x7d;\n".toList) ∨
       (∃ (first : Str) (others : List Str) (rest : Str),
        sortStrings (Keys (getList selfModel "main".toList)) = first :: others ∧
        getStr (GenerateBindings selfModel) "main".toList
          = header ++ GenerateHelper "main".toList first ++ rest))) :=
  GenerateBindings_module_start selfModel "main".toList (by decide) (by decide) (by decide)

/-- C15: in a bindings collection whose pairwise-distinct package identifiers
contain no `/`, for a package `P` none of whose methods has a struct-typed
input or output and whose method names are distinct within each service, the
module text is the header, then for each service in ascending order of name its
helper followed by the stubs of its methods in ascending order of name, then
the two `window.go` lines, then for each service in the same order its
namespace entry with the method names in ascending order, then the closing
line.  `services` is that ascending enumeration; it is fixed by the content of
the package, whatever the order in which services and methods were supplied. -/
theorem GenerateBindings_module_text (bindings : BindingsMap) (packageName : Str)
    (services : List (Str × List BoundMethod))
    (hnodup : (Keys bindings).Nodup)
    (hslash : ∀ x ∈ Keys bindings, Contains x "/".toList = false)
    (hpackage : packageName ∈ Keys bindings)
    (hstruct : packageUsesStruct (getList bindings packageName) = false)
    (hnames : ∀ s ∈ Keys (getList bindings packageName),
      ((getList (getList bindings packageName) s).map (fun m => m.Name)).Nodup)
    (hperm : (services.map Prod.fst).Perm (Keys (getList bindings packageName)))
    (hsorted : (services.map Prod.fst).Sorted (fun a b => strLe a b = true))
    (hmethods : ∀ e ∈ services, e.2.Perm (getList (getList bindings packageName) e.1) ∧
      e.2.Sorted (fun m n => strLe m.Name n.Name = true)) :
    getStr (GenerateBindings bindings) packageName
      = header
        ++ services.flatMap (fun e =>
            GenerateHelper packageName e.1
              ++ e.2.flatMap (fun method => (GenerateBinding e.1 method).1))
        ++ "\nwindow.go = window.go || \x7b\x7d;\n".toList
        ++ ("window.go.".toList ++ packageName ++ " = \x7b\n".toList)
        ++ services.flatMap (fun e =>
            "    ".toList ++ e.1 ++ ": \x7b\n".toList
              ++ e.2.flatMap (fun method =>
                  "        ".toList ++ method.Name ++ ",\n".toList)
              ++ "    \x7d,\n".toList)
        ++ "\x7d;\n".toList := by
  obtain ⟨hid, htext⟩ := GenerateBindings_no_slash bindings packageName hnodup hslash hpackage
  have hm : allModelsOf (getList bindings packageName) = [] :=
    (allModelsOf_eq_nil _).mpr hstruct
  rw [htext]
  unfold moduleText
  rw [hid, if_pos hm, List.nil_append,
    visitedServices_eq _ services hperm hsorted hmethods hnames]
  unfold moduleBody stubsText namespaceText
  simp only [List.append_assoc]

theorem GenerateBindings_module_text_witness :
    getStr (GenerateBindings unorderedModel) "main".toList
      = header
        ++ [("App".toList, [greet]), ("Zoo".toList, [greet, remove])].flatMap (fun e =>
            GenerateHelper "main".toList e.1
              ++ e.2.flatMap (fun method => (GenerateBinding e.1 method).1))
        ++ "\nwindow.go = window.go || \x7b\x7d;\n".toList
        ++ ("window.go.".toList ++ "main".toList ++ " = \x7b\n".toList)
        ++ [("App".toList, [greet]), ("Zoo".toList, [greet, remove])].flatMap (fun e =>
            "    ".toList ++ e.1 ++ ": \x7b\n".toList
              ++ e.2.flatMap (fun method =>
                  "        ".toList ++ method.Name ++ ",\n".toList)
              ++ "    \x7d,\n".toList)
        ++ "\x7d;\n".toList :=
  GenerateBindings_module_text unorderedModel "main".toList
    [("App".toList, [greet]), ("Zoo".toList, [greet, remove])]
    (by decide) (by decide) (by decide) (by decide) (by decide) (by decide) (by decide)
    (by decide)

end Bindings
